import Mathlib

/-!
Verification development for the bot-hoster repository.

This file shallowly embeds the core of the repository
(`session_manager.py`, `code_executor.py`, `file_handler.py`,
`security.py`, `config.py`) into Lean and proves / refutes the
frozen claims about it.

Modelling conventions:
- Python `dict` objects are embedded as association lists together with
  `dlookup` / `dinsert` / `derase` operations that mirror Python dict
  assignment (update-in-place for an existing key, append for a new key)
  and `del` (remove the key).
- OS processes are identified by a natural-number handle; liveness
  (`Popen.poll() is None`) is an oracle `alive : Nat -> Bool` supplied at
  each query, since a process may die at any time between calls.
- Filesystem paths in the executor model are lists of components, with
  `resolve` (symlink / relative resolution) an oracle supplied by a
  `FileSystem` record; `Path.relative_to` succeeds exactly when the
  resolved working directory is a prefix of the resolved script path.
- Wall-clock times are naturals (seconds); `datetime.now()` values are
  passed in explicitly as `now` arguments.
- Network calls of the security checker are an oracle
  `file -> model -> Except Unit ScanRes` describing, per (file, model)
  pair, whether `check_file` raises or which result dict it returns.
-/

namespace BotHoster

/-! ## Association-list embedding of Python dicts -/

/-- First value bound to key `k`, like Python `d.get(k)` / `d[k]`. -/
def dlookup {α : Type} (k : Nat) : List (Nat × α) → Option α
  | [] => none
  | (k', v) :: rest => if k' = k then some v else dlookup k rest

/-- Keys of the dict, like Python `d.keys()`. -/
def dkeys {α : Type} (l : List (Nat × α)) : List Nat :=
  l.map Prod.fst

/-- Python `del d[k]`: remove the binding of `k`. -/
def derase {α : Type} (k : Nat) : List (Nat × α) → List (Nat × α)
  | [] => []
  | (k', v) :: rest => if k' = k then derase k rest else (k', v) :: derase k rest

/-- Replace the value bound to `k` in place, keeping list order. -/
def dupdate {α : Type} (k : Nat) (v : α) : List (Nat × α) → List (Nat × α)
  | [] => []
  | (k', v') :: rest =>
      if k' = k then (k, v) :: rest else (k', v') :: dupdate k v rest

/-- Python `d[k] = v`: update in place when `k` is present, append at the
end otherwise (Python dicts keep insertion order). -/
def dinsert {α : Type} (k : Nat) (v : α) (l : List (Nat × α)) : List (Nat × α) :=
  match dlookup k l with
  | some _ => dupdate k v l
  | none => l ++ [(k, v)]

/-- A dict is well formed when no key is bound twice. -/
def DWF {α : Type} (l : List (Nat × α)) : Prop :=
  (dkeys l).Nodup

instance {α : Type} (l : List (Nat × α)) : Decidable (DWF l) :=
  inferInstanceAs (Decidable (dkeys l).Nodup)

/-- Delete a list of keys in order, like a Python loop of `del d[k]`. -/
def eraseKeys {α : Type} (ks : List Nat) (l : List (Nat × α)) : List (Nat × α) :=
  ks.foldl (fun acc k => derase k acc) l


/-! ## config.py -/

/-- Default of `MAX_BOTS_PER_USER` in `config.py` (env default "2"). -/
def MAX_BOTS_PER_USER : Nat := 2

/-- Default of `MAX_CONSOLE_LINES` in `config.py` (env default "50"). -/
def MAX_CONSOLE_LINES : Nat := 50

/-- Default of `SECURITY_BATCH_SIZE` in `config.py` (env default "5"). -/
def SECURITY_BATCH_SIZE : Nat := 5

/-- The slot-directory path that `config.get_user_project_dir` builds for a
clamped slot value: `USER_UPLOADS_DIR / str(user_id) / f"bot_{bot_slot}"`.
`baseDir` stands for the deployment-dependent `BASE_DIR`; the `mkdir`
side effect is not modelled. -/
def slot_dir_path (baseDir : String) (user_id : Nat) (bot_slot : Int) : String :=
  baseDir ++ "/user_uploads/" ++ toString user_id ++ "/bot_" ++ toString bot_slot

/-- `config.get_user_project_dir(user_id, bot_slot)`: clamps `bot_slot < 1`
to 1 ("Ensure slot is within bounds") and returns the slot directory. -/
def get_user_project_dir (baseDir : String) (user_id : Nat) (bot_slot : Int) : String :=
  let bot_slot := if bot_slot < 1 then 1 else bot_slot
  slot_dir_path baseDir user_id bot_slot

/-! ## code_executor.py: CodeExecutor -/

/-- A filesystem path, as a list of components. -/
abbrev FsPath := List String

/-- Oracle describing the filesystem state seen by `CodeExecutor.start_process`:
existence (`Path.exists`), regular-file test (`Path.is_file`) and canonical
resolution (`Path.resolve`, which follows symlinks and removes relative
segments). -/
structure FileSystem where
  pathExists : FsPath → Bool
  isFile : FsPath → Bool
  resolve : FsPath → FsPath

/-- Result of `script_path.resolve().relative_to(working_dir.resolve())`:
for canonical absolute paths, `relative_to` succeeds exactly when the
base is a component-wise prefix. -/
def insideDir (script wd : FsPath) : Bool :=
  wd.isPrefixOf script

/-- The typed error kinds of `CodeExecutor.start_process`, tagged by the
distinct error message the source returns for each branch. -/
inductive StartErr where
  | scriptNotFound
  | notAFile
  | pathEscape
deriving DecidableEq, Repr

/-- The spawned child process: `subprocess.Popen(["python3", script], cwd=wd)`.
A `SpawnedProc` value exists exactly when the source reaches the
`subprocess.Popen` call. -/
structure SpawnedProc where
  script : FsPath
  cwd : FsPath
deriving DecidableEq, Repr

/-- `CodeExecutor.start_process(script_path, working_dir)`: validates that
the script exists, is a regular file and resolves inside the working
directory, in that order, before spawning. -/
def start_process (fs : FileSystem) (script_path working_dir : FsPath) :
    Except StartErr SpawnedProc :=
  if !fs.pathExists script_path then .error .scriptNotFound
  else if !fs.isFile script_path then .error .notAFile
  else if !insideDir (fs.resolve script_path) (fs.resolve working_dir) then .error .pathEscape
  else .ok ⟨script_path, working_dir⟩

/-- Python whitespace characters removed by `str.strip()`. -/
def isSpaceChar (c : Char) : Bool :=
  c == ' ' || c == '\t' || c == '\n' || c == '\r' || c == '\x0b' || c == '\x0c'

/-- Python `line.strip()`: drop leading and trailing whitespace. -/
def pyStrip (s : String) : String :=
  ⟨((s.data.dropWhile isSpaceChar).reverse.dropWhile isSpaceChar).reverse⟩

/-- One step of the retention loop in `CodeExecutor.monitor_console_output`:
strip the line, drop it when empty, otherwise append it and `pop(0)` when
the buffer has grown past `max_console_lines`. -/
def pushLine (maxLines : Nat) (buf : List String) (raw : String) : List String :=
  let line := pyStrip raw
  if line = "" then buf
  else
    let buf' := buf ++ [line]
    if maxLines < buf'.length then buf'.drop 1 else buf'

/-- `CodeExecutor.monitor_console_output`, restricted to its observable
return value for a process that emits `lines` and then exits: every line
read (live or in the post-exit drain, in emission order) goes through the
same strip / append / evict-oldest retention step; the retained buffer is
returned. The periodic `output_callback` has no effect on the result. -/
def monitor_console_output (maxLines : Nat) (lines : List String) : List String :=
  lines.foldl (pushLine maxLines) []

/-- How the OS responds when a live process is terminated: graceful stop
within the timeout, successful force kill after the timeout, or a failing
force kill raising an error with some message. -/
inductive KillOutcome where
  | graceful
  | forced
  | forceFailed (msg : String)
deriving DecidableEq, Repr

/-- `CodeExecutor.stop_process`: when the process has already exited
(`poll() is not None`) return success immediately; otherwise escalate
terminate-then-kill, with the OS response given by the oracle. -/
def stop_process (alive : Nat → Bool) (osResponse : Nat → KillOutcome) (proc : Nat) :
    Bool × Option String :=
  if !alive proc then (true, none)
  else
    match osResponse proc with
    | .graceful => (true, none)
    | .forced => (true, none)
    | .forceFailed msg => (false, some ("Error force killing process: " ++ msg))

/-! ## file_handler.py: FileHandler.extract_zip -/

/-- Prefix test on character lists (pattern first). -/
def charsLead : List Char → List Char → Bool
  | [], _ => true
  | _ :: _, [] => false
  | a :: as, b :: bs => a == b && charsLead as bs

/-- Substring test on character lists (pattern first), like Python
`pat in s`. -/
def charsContains (pat : List Char) : List Char → Bool
  | [] => pat.isEmpty
  | t :: ts => charsLead pat (t :: ts) || charsContains pat ts

/-- Python `".." in file_path` (substring containment). -/
def containsDotDot (p : String) : Bool :=
  charsContains "..".data p.data

/-- Python `os.path.isabs(file_path)` for POSIX paths. -/
def isAbsPath (p : String) : Bool :=
  match p.data with
  | '/' :: _ => true
  | _ => false

/-- The distinct error kinds of `FileHandler.extract_zip` that can occur
once the archive is a readable zip, tagged by the source's messages:
`"Zip file contains too many files (potential zip bomb)"` and
`"Invalid file path in zip: {file_path}"`. -/
inductive ExtractErr where
  | tooManyFiles
  | unsafePath (entry : String)
deriving DecidableEq, Repr

/-- `FileHandler.extract_zip` on a valid zip whose entry list is `entries`:
rejects more than 10000 entries, then rejects the first entry whose path
is absolute or contains `".."`, and only then calls `extractall`.
`.ok` carries the extracted entry list. -/
def extract_zip (entries : List String) : Except ExtractErr (List String) :=
  if 10000 < entries.length then .error .tooManyFiles
  else
    match entries.find? (fun p => isAbsPath p || containsDotDot p) with
    | some p => .error (.unsafePath p)
    | none => .ok entries

/-- The files `extract_zip` writes into the destination directory: the
`zip_ref.extractall` call runs only on the success path. -/
def extract_zip_writes (entries : List String) : List String :=
  match extract_zip entries with
  | .ok fs => fs
  | .error _ => []

/-! ## session_manager.py: SessionManager -/

/-- One value of the inner `running_bots[user_id]` dict:
`{process, project_path, console_output, message, start_time}`.
The process handle is its id; the Discord message object is its id. -/
structure BotInfo where
  process : Nat
  projectPath : String
  consoleOutput : List String
  message : Nat
  startTime : Nat
deriving DecidableEq, Repr

/-- One value of the `user_projects` dict:
`{"upload_location": str, "slot": int, "project_path": str}`. -/
structure Project where
  uploadLocation : String
  slot : Nat
  projectPath : String
deriving DecidableEq, Repr

/-- One value of the `user_sessions` dict:
`{last_activity, upload_location, state, slot}`. -/
structure Session where
  lastActivity : Nat
  uploadLocation : String
  state : String
  slot : Nat
deriving DecidableEq, Repr

/-- The mutable state of a `SessionManager` instance. -/
structure SessionManager where
  sessionTimeout : Nat
  runningBots : List (Nat × List (Nat × BotInfo))
  userProjects : List (Nat × Project)
  userSessions : List (Nat × Session)
deriving DecidableEq, Repr

/-- `SessionManager.__init__(session_timeout)`. -/
def SessionManager.init (session_timeout : Nat) : SessionManager :=
  { sessionTimeout := session_timeout
    runningBots := []
    userProjects := []
    userSessions := [] }

namespace SessionManager

/-- The inner `running_bots[user_id]` dict, empty when absent. -/
def botsOf (st : SessionManager) (user_id : Nat) : List (Nat × BotInfo) :=
  (dlookup user_id st.runningBots).getD []

/-- The slot reserved by the user's active upload session, as consulted by
`_get_available_slot` and `get_upload_slot`:
`user_projects.get(user_id, {}).get("slot")`. -/
def get_upload_slot (st : SessionManager) (user_id : Nat) : Option Nat :=
  (dlookup user_id st.userProjects).map Project.slot

/-- `SessionManager._get_available_slot(user_id)`: first slot in
`range(1, MAX_BOTS_PER_USER + 1)` neither occupied by a running bot nor
reserved by the user's upload session. `maxBots` is `MAX_BOTS_PER_USER`. -/
def getAvailableSlot (maxBots : Nat) (st : SessionManager) (user_id : Nat) : Option Nat :=
  let occupied := dkeys (st.botsOf user_id) ++ (st.get_upload_slot user_id).toList
  (List.range' 1 maxBots).find? (fun slot => !(decide (slot ∈ occupied)))

/-- `SessionManager.start_upload_session(user_id, upload_location)`, state
plus the returned `(success, error_message, slot, project_path)`. The
`baseDir` and `now` arguments stand for `BASE_DIR` and `datetime.now()`. -/
def start_upload_session (maxBots : Nat) (baseDir : String) (now : Nat)
    (st : SessionManager) (user_id : Nat) (upload_location : String) :
    SessionManager × Bool × Option String × Option Nat × Option String :=
  match getAvailableSlot maxBots st user_id with
  | none => (st, false, some "Maximum bots already running or reserved.", none, none)
  | some slot =>
      let project_path := get_user_project_dir baseDir user_id slot
      let st :=
        { st with
            userProjects :=
              dinsert user_id ⟨upload_location, slot, project_path⟩ st.userProjects
            userSessions :=
              dinsert user_id ⟨now, upload_location, "uploading", slot⟩ st.userSessions }
      (st, true, none, some slot, some project_path)

/-- `SessionManager.end_upload_session(user_id)`: drops the user's
`user_projects` and `user_sessions` entries; always returns True. -/
def end_upload_session (st : SessionManager) (user_id : Nat) : SessionManager × Bool :=
  ({ st with
      userProjects := derase user_id st.userProjects
      userSessions := derase user_id st.userSessions }, true)

/-- `SessionManager.register_running_bot(user_id, slot, process,
project_path, message)`: unconditionally stores the bot info under
`(user_id, slot)` and returns True. -/
def register_running_bot (now : Nat) (st : SessionManager) (user_id slot : Nat)
    (process : Nat) (project_path : String) (message : Nat) :
    SessionManager × Bool :=
  let inner := dinsert slot ⟨process, project_path, [], message, now⟩ (st.botsOf user_id)
  ({ st with runningBots := dinsert user_id inner st.runningBots }, true)

/-- The slots selected by `stop_bot`'s `[slot] if slot else
list(self.running_bots[user_id].keys())` (Python truthiness: `slot=None`
and `slot=0` both select every slot). -/
def stopSlots (inner : List (Nat × BotInfo)) : Option Nat → List Nat
  | some s => if s = 0 then dkeys inner else [s]
  | none => dkeys inner

/-- `SessionManager.stop_bot(user_id, slot)`: error when the user has no
`running_bots` entry; otherwise terminate and delete each selected slot
and drop the user's entry when its inner dict becomes empty. The
OS-level terminate / kill calls do not affect the registry. -/
def stop_bot (st : SessionManager) (user_id : Nat) (slot : Option Nat) :
    SessionManager × Bool × Option String :=
  match dlookup user_id st.runningBots with
  | none => (st, false, some "No bot is running")
  | some inner =>
      if (eraseKeys (stopSlots inner slot) inner).isEmpty then
        ({ st with runningBots := derase user_id st.runningBots }, true, none)
      else
        ({ st with runningBots :=
            dupdate user_id (eraseKeys (stopSlots inner slot) inner) st.runningBots },
          true, none)

/-- `SessionManager.is_bot_running(user_id, slot)`: liveness of the stored
process handle(s), re-checked against the OS (`poll() is None`) through
the `alive` oracle. -/
def is_bot_running (alive : Nat → Bool) (st : SessionManager) (user_id : Nat)
    (slot : Option Nat) : Bool :=
  match dlookup user_id st.runningBots with
  | none => false
  | some inner =>
      match slot with
      | none => inner.any (fun p => alive p.2.process)
      | some s =>
          match dlookup s inner with
          | none => false
          | some info => alive info.process

/-- `SessionManager.get_running_bots_count_for_user(user_id)`: number of
stored bots of the user whose process is still alive. No side effects. -/
def get_running_bots_count_for_user (alive : Nat → Bool) (st : SessionManager)
    (user_id : Nat) : Nat :=
  match dlookup user_id st.runningBots with
  | none => 0
  | some inner => (inner.filter (fun p => alive p.2.process)).length

/-- `SessionManager.get_running_bots_count()`: counts live processes over
all users and, as a side effect, lazily reaps entries of exited processes
and then users with no entries left. -/
def get_running_bots_count (alive : Nat → Bool) (st : SessionManager) :
    SessionManager × Nat :=
  let rb :=
    (st.runningBots.map (fun p => (p.1, p.2.filter (fun q => alive q.2.process)))).filter
      (fun p => !p.2.isEmpty)
  let count :=
    (st.runningBots.map
      (fun p => (p.2.filter (fun q => alive q.2.process)).length)).sum
  ({ st with runningBots := rb }, count)

/-- Loop body state of `cleanup_expired_sessions`: the manager being
mutated and the `cleaned` counter. -/
def cleanupStep (timeout now : Nat) (acc : SessionManager × Nat) (p : Nat × Session) :
    SessionManager × Nat :=
  if timeout < now - p.2.lastActivity then
    ({ acc.1 with
        userSessions := derase p.1 acc.1.userSessions
        userProjects := derase p.1 acc.1.userProjects }, acc.2 + 1)
  else acc

/-- `SessionManager.cleanup_expired_sessions()`: iterates over a copy of
`user_sessions.items()` and deletes the session metadata (and the
`user_projects` entry) of every user whose `last_activity` is more than
`session_timeout` seconds before `now`; running bots are not touched. -/
def cleanup_expired_sessions (now : Nat) (st : SessionManager) : SessionManager × Nat :=
  st.userSessions.foldl (cleanupStep st.sessionTimeout now) (st, 0)

end SessionManager

/-- The operations a client can invoke on a `SessionManager`, each carrying
the external inputs (current time, process handles, OS liveness) it
depends on. -/
inductive Op where
  | startUpload (user_id : Nat) (upload_location : String) (now : Nat)
  | endUpload (user_id : Nat)
  | register (user_id slot process : Nat) (project_path : String) (message now : Nat)
  | stopBot (user_id : Nat) (slot : Option Nat)
  | countAll (alive : Nat → Bool)
  | cleanup (now : Nat)

/-- State transition of a single operation (return values discarded). -/
def Op.apply (maxBots : Nat) (baseDir : String) (st : SessionManager) : Op → SessionManager
  | .startUpload u loc now => (st.start_upload_session maxBots baseDir now u loc).1
  | .endUpload u => (st.end_upload_session u).1
  | .register u slot proc path msg now => (st.register_running_bot now u slot proc path msg).1
  | .stopBot u slot => (st.stop_bot u slot).1
  | .countAll alive => (st.get_running_bots_count alive).1
  | .cleanup now => (st.cleanup_expired_sessions now).1

/-- Run a sequence of operations from a starting state. -/
def applyTrace (maxBots : Nat) (baseDir : String) (st : SessionManager) :
    List Op → SessionManager
  | [] => st
  | o :: rest => applyTrace maxBots baseDir (o.apply maxBots baseDir st) rest

/-! ## security.py: SecurityChecker -/

/-- A classifier result dict `{"type": ..., "statement": ...}`. -/
structure ScanRes where
  type : String
  statement : String
deriving DecidableEq, Repr

/-- Suffix test via reversed character lists, like Python `str.endswith`. -/
def strEndsWith (s suffix : String) : Bool :=
  charsLead suffix.data.reverse s.data.reverse

/-- The fixed allow-list of code extensions in `SecurityChecker.scan_files`. -/
def code_extensions : List String :=
  [".py", ".js", ".ts", ".java", ".cpp", ".c", ".go", ".rs", ".php", ".rb"]

/-- A file is sent to the classifier iff its name ends in a code extension. -/
def isCodeFile (f : String) : Bool :=
  code_extensions.any (fun ext => strEndsWith f ext)

/-- Outcome of one `SecurityChecker.check_file(file, content, model)` call:
`.error ()` when the call raises (model already rate-limited, or HTTP 429),
`.ok r` when it returns the result dict `r` (including the fail-open
results it builds itself on timeout, non-200 status, network error or
malformed reply). This is the oracle for the network-dependent call. -/
abbrev CheckOutcome := Except Unit ScanRes

/-- `SecurityChecker.check_file_with_retry(file_path, content)`: walk the
priority-ordered model list, skipping models remembered as rate-limited;
a raised exception moves on to the next model, a `malicious` result
returns immediately, a `normal` result also moves on ("try next model for
confirmation"); when no model reported `malicious`, return the fixed
`Code verified safe` result. -/
def check_file_with_retry (outcome : String → CheckOutcome)
    (rate_limited_models : List String) (models : List String) : ScanRes :=
  match models with
  | [] => ⟨"normal", "Code verified safe"⟩
  | model :: rest =>
      if rate_limited_models.contains model then
        check_file_with_retry outcome rate_limited_models rest
      else
        match outcome model with
        | .error _ => check_file_with_retry outcome rate_limited_models rest
        | .ok result =>
            if result.type = "malicious" then result
            else check_file_with_retry outcome rate_limited_models rest

/-- The index-wise result assignment of `SecurityChecker.scan_files`:
`for i, file_path in enumerate(batch_files)`, batch file `i` is paired
with `batch_results[i]` when `i < len(batch_results)` and with a
`Not scanned` result otherwise. -/
def assignLoop : List String → List ScanRes → List (String × ScanRes)
  | [], _ => []
  | f :: fs, [] => (f, ⟨"normal", "Not scanned"⟩) :: assignLoop fs []
  | f :: fs, t :: ts => (f, t) :: assignLoop fs ts

/-- One batch of `SecurityChecker.scan_files`: the `tasks` list holds one
retry-check per batch file that has readable content, and the results are
assigned back to the batch files by index. -/
def assignBatch (retry : String → ScanRes) (hasContent : String → Bool)
    (batch : List String) : List (String × ScanRes) :=
  assignLoop batch ((batch.filter hasContent).map retry)

/-- The batch loop of `SecurityChecker.scan_files`: process the code files
in slices of `SECURITY_BATCH_SIZE` (its default value 5), sequentially. -/
def scanBatches (retry : String → ScanRes) (hasContent : String → Bool) :
    List String → List (String × ScanRes)
  | [] => []
  | [a] => assignBatch retry hasContent [a]
  | [a, b] => assignBatch retry hasContent [a, b]
  | [a, b, c] => assignBatch retry hasContent [a, b, c]
  | [a, b, c, d] => assignBatch retry hasContent [a, b, c, d]
  | a :: b :: c :: d :: e :: rest =>
      assignBatch retry hasContent [a, b, c, d, e] ++ scanBatches retry hasContent rest

/-- String-keyed association-list lookup for scan-result dicts. -/
def slookup (k : String) : List (String × ScanRes) → Option ScanRes
  | [] => none
  | (k', v) :: rest => if k' = k then some v else slookup k rest

/-- `SecurityChecker.scan_files(project_dir, file_paths)`: filter the
input paths to code files; when there are none, mark every input
`Not a code file`; otherwise scan the code files in batches (reading each
file's content first; `hasContent` tells which paths are readable regular
files) and finally add every input path not already present as a
`Not a code file` result. `outcome` is the per-(file, model) oracle for
`check_file` and `retry` below instantiates `check_file_with_retry`. -/
def scan_files (outcome : String → String → CheckOutcome)
    (rate_limited_models : List String) (models : List String)
    (hasContent : String → Bool) (file_paths : List String) :
    List (String × ScanRes) :=
  if (file_paths.filter isCodeFile).isEmpty then
    file_paths.map (fun f => (f, ⟨"normal", "Not a code file"⟩))
  else
    scanBatches (fun f => check_file_with_retry (outcome f) rate_limited_models models)
        hasContent (file_paths.filter isCodeFile) ++
      (file_paths.filter (fun f =>
          (slookup f (scanBatches
            (fun f => check_file_with_retry (outcome f) rate_limited_models models)
            hasContent (file_paths.filter isCodeFile))).isNone)).map
        (fun f => (f, ⟨"normal", "Not a code file"⟩))

/-! ## Predicates and concrete states used by the claims -/

/-- The suffix of `l` of length at most `n` (drop all but the last `n`). -/
def lastWindow (n : Nat) (l : List String) : List String :=
  l.drop (l.length - n)

/-- Spec-side description of the monitor's return value: the most recent
window (at most `maxLines` long) of the stripped non-empty emitted lines,
in emission order. -/
def retainedWindowSpec (maxLines : Nat) (lines : List String) : List String :=
  lastWindow maxLines ((lines.map pyStrip).filter (fun l => !(l == "")))

/-- Whether the user's upload session has idled past the timeout by time
`now`, per the condition of `cleanup_expired_sessions`. -/
def SessionManager.sessionExpired (st : SessionManager) (now user_id : Nat) : Bool :=
  match dlookup user_id st.userSessions with
  | some sess => decide (st.sessionTimeout < now - sess.lastActivity)
  | none => false

/-- The users whose sessions `cleanup_expired_sessions` deletes. -/
def expiredKeys (timeout now : Nat) (items : List (Nat × Session)) : List Nat :=
  (items.filter (fun p => decide (timeout < now - p.2.lastActivity))).map Prod.fst

/-- Well-formedness of an operation's inputs with respect to the data
model: a registered Slot is an integer in `[1, MAX_BOTS_PER_USER]`. -/
def Op.slotOK (maxBots : Nat) : Op → Bool
  | .register _ slot _ _ _ _ => decide (1 ≤ slot) && decide (slot ≤ maxBots)
  | _ => true

/-- The registry invariant behind the per-user capacity bound: the outer
dict and each user's inner dict have no duplicate keys, and every
registered slot lies in `[1, maxBots]`. -/
def SlotWF (maxBots : Nat) (st : SessionManager) : Prop :=
  DWF st.runningBots ∧
    ∀ u, DWF (st.botsOf u) ∧ ∀ s ∈ dkeys (st.botsOf u), 1 ≤ s ∧ s ≤ maxBots

/-- No (user, slot) pair is simultaneously reserved by an upload session
and occupied by a running-bot registry entry. -/
def NoCoexist (st : SessionManager) : Prop :=
  ∀ u s, st.get_upload_slot u = some s → dlookup s (st.botsOf u) = none

/-- Inductive invariant for the coexistence claim. -/
def RegWF (st : SessionManager) : Prop :=
  DWF st.runningBots ∧ NoCoexist st

/-- An operation respects the caller protocol of the repository (the
upload session is ended before the process is registered): a register
never targets the slot currently reserved by the same user's upload
session. -/
def SafeStep (st : SessionManager) : Op → Prop
  | .register u slot _ _ _ _ => st.get_upload_slot u ≠ some slot
  | _ => True

/-- Every step of the trace is safe in the state it executes in. -/
def SafeTrace (maxBots : Nat) (baseDir : String) : SessionManager → List Op → Prop
  | _, [] => True
  | st, o :: rest => SafeStep st o ∧ SafeTrace maxBots baseDir (o.apply maxBots baseDir st) rest

/-- A `check_file` call that fails in one of the source's failure modes:
it raises (rate limit), or it returns one of the fallback dicts the
source builds on timeout, non-200 status, network error or malformed
reply — all of which carry `type = "normal"`. -/
def checkFileFails (o : CheckOutcome) : Prop :=
  o = .error () ∨ ∃ r, o = .ok r ∧ r.type = "normal"

/-- A filesystem on which every path exists, is a regular file, and is
already canonical. -/
def allFS : FileSystem :=
  ⟨fun _ => true, fun _ => true, fun p => p⟩

/-- A filesystem on which no path exists; resolution is the identity. -/
def missingFS : FileSystem :=
  ⟨fun _ => false, fun _ => false, fun p => p⟩

/-- An archive listing 10001 entries, one of which is a traversal path. -/
def bigEntries : List String :=
  "../evil" :: List.replicate 10000 "x"

/-- A manager state with one running bot: user 7, slot 1, process 100. -/
def stReg : SessionManager :=
  ((SessionManager.init 600).register_running_bot 0 7 1 100 "p" 5).1

/-- A manager state with an upload session of user 7 (started at time 0)
and a running bot of user 8 in slot 1 (process 100). -/
def stMixed : SessionManager :=
  { sessionTimeout := 600
    runningBots := [(8, [(1, ⟨100, "p", [], 5, 0⟩)])]
    userProjects := [(7, ⟨"dm", 1, "d"⟩)]
    userSessions := [(7, ⟨0, "dm", "uploading", 1⟩)] }

/-! ## Library lemmas about the dict embedding -/

theorem dlookup_eq_none_iff {α : Type} {k : Nat} {l : List (Nat × α)} :
    dlookup k l = none ↔ k ∉ dkeys l := by
  induction l with
  | nil => simp [dlookup, dkeys]
  | cons p rest ih =>
      obtain ⟨k', v⟩ := p
      by_cases h : k' = k
      · subst h
        simp [dlookup, dkeys]
      · simp only [dlookup, if_neg h, dkeys, List.map_cons, List.mem_cons]
        rw [ih]
        show k ∉ List.map Prod.fst rest ↔ _
        constructor
        · intro hnm hor
          rcases hor with h1 | h2
          · exact h h1.symm
          · exact hnm h2
        · intro hnm h2
          exact hnm (Or.inr h2)

theorem dlookup_isSome_of_mem_keys {α : Type} {k : Nat} {l : List (Nat × α)}
    (h : k ∈ dkeys l) : ∃ v, dlookup k l = some v := by
  rcases hl : dlookup k l with _ | v
  · exact absurd h (dlookup_eq_none_iff.mp hl)
  · exact ⟨v, rfl⟩

theorem mem_keys_of_dlookup {α : Type} {k : Nat} {l : List (Nat × α)} {v : α}
    (h : dlookup k l = some v) : k ∈ dkeys l := by
  by_contra hmem
  rw [dlookup_eq_none_iff.mpr hmem] at h
  cases h

theorem dlookup_derase_self {α : Type} (k : Nat) (l : List (Nat × α)) :
    dlookup k (derase k l) = none := by
  induction l with
  | nil => rfl
  | cons p rest ih =>
      obtain ⟨k', v⟩ := p
      by_cases h : k' = k
      · simpa [derase, h] using ih
      · simpa [derase, dlookup, h] using ih

theorem dlookup_derase_ne {α : Type} {k k' : Nat} (h : k' ≠ k) (l : List (Nat × α)) :
    dlookup k' (derase k l) = dlookup k' l := by
  induction l with
  | nil => rfl
  | cons p rest ih =>
      obtain ⟨ka, va⟩ := p
      have h1 : ¬ (k = k') := fun hh => h hh.symm
      by_cases hka : ka = k
      · simpa [derase, dlookup, hka, h1] using ih
      · by_cases hk' : ka = k' <;> simp [derase, dlookup, hka, hk', h, ih]

theorem derase_of_not_mem {α : Type} {k : Nat} {l : List (Nat × α)}
    (h : dlookup k l = none) : derase k l = l := by
  induction l with
  | nil => rfl
  | cons p rest ih =>
      obtain ⟨k', v⟩ := p
      by_cases hk : k' = k
      · simp [dlookup, hk] at h
      · simp only [dlookup, if_neg hk] at h
        simp [derase, hk, ih h]

theorem dkeys_derase_sublist {α : Type} (k : Nat) (l : List (Nat × α)) :
    (dkeys (derase k l)).Sublist (dkeys l) := by
  induction l with
  | nil => simp [derase, dkeys]
  | cons p rest ih =>
      obtain ⟨ka, va⟩ := p
      by_cases hka : ka = k
      · simp only [derase, if_pos hka, dkeys, List.map_cons]
        exact ih.cons ka
      · simp only [derase, if_neg hka, dkeys, List.map_cons]
        exact ih.cons₂ ka

theorem DWF_derase {α : Type} {k : Nat} {l : List (Nat × α)} (h : DWF l) :
    DWF (derase k l) :=
  List.Nodup.sublist (dkeys_derase_sublist k l) h

theorem dkeys_dupdate {α : Type} (k : Nat) (v : α) (l : List (Nat × α)) :
    dkeys (dupdate k v l) = dkeys l := by
  induction l with
  | nil => rfl
  | cons p rest ih =>
      obtain ⟨k', v'⟩ := p
      by_cases h : k' = k
      · simp [dupdate, dkeys, h]
      · simp only [dupdate, if_neg h, dkeys, List.map_cons]
        rw [show List.map Prod.fst (dupdate k v rest) = dkeys (dupdate k v rest) from rfl, ih]
        rfl

theorem dlookup_dupdate_self {α : Type} {k : Nat} {v : α} {l : List (Nat × α)}
    (h : ∃ w, dlookup k l = some w) : dlookup k (dupdate k v l) = some v := by
  induction l with
  | nil => simp [dlookup] at h
  | cons p rest ih =>
      obtain ⟨k', v'⟩ := p
      by_cases hk : k' = k
      · simp [dupdate, dlookup, hk]
      · simp only [dlookup, if_neg hk] at h
        simp only [dupdate, if_neg hk, dlookup, if_neg hk]
        exact ih h

theorem dlookup_dupdate_ne {α : Type} {k k' : Nat} (h : k' ≠ k) (v : α) (l : List (Nat × α)) :
    dlookup k' (dupdate k v l) = dlookup k' l := by
  induction l with
  | nil => rfl
  | cons p rest ih =>
      obtain ⟨ka, va⟩ := p
      have h1 : ¬ (k = k') := fun hh => h hh.symm
      by_cases hka : ka = k
      · simp [dupdate, hka, dlookup, h1]
      · by_cases hk' : ka = k' <;> simp [dupdate, hka, dlookup, hk', h, ih]

theorem dupdate_self {α : Type} {k : Nat} {v : α} {l : List (Nat × α)}
    (hwf : DWF l) (h : dlookup k l = some v) : dupdate k v l = l := by
  induction l with
  | nil => rfl
  | cons p rest ih =>
      obtain ⟨k', v'⟩ := p
      by_cases hk : k' = k
      · subst hk
        have h' : v' = v := by simpa [dlookup] using h
        subst h'
        simp [dupdate]
      · simp only [dlookup, if_neg hk] at h
        have hwf' : DWF rest := by
          unfold DWF dkeys at hwf ⊢
          simp only [List.map_cons, List.nodup_cons] at hwf
          exact hwf.2
        simp [dupdate, hk, ih hwf' h]

theorem dlookup_append_single_self {α : Type} {k : Nat} {l : List (Nat × α)}
    (h : dlookup k l = none) (v : α) :
    dlookup k (l ++ [(k, v)]) = some v := by
  induction l with
  | nil => simp [dlookup]
  | cons p rest ih =>
      obtain ⟨ka, va⟩ := p
      by_cases hk : ka = k
      · simp [dlookup, hk] at h
      · simp only [dlookup, if_neg hk] at h
        simpa [dlookup, hk] using ih h

theorem dlookup_append_single_ne {α : Type} {k k' : Nat} (h : k' ≠ k) (v : α)
    (l : List (Nat × α)) :
    dlookup k' (l ++ [(k, v)]) = dlookup k' l := by
  have h1 : ¬ (k = k') := fun hh => h hh.symm
  induction l with
  | nil => simp [dlookup, h1]
  | cons p rest ih =>
      obtain ⟨ka, va⟩ := p
      by_cases hk' : ka = k' <;> simp [dlookup, hk', ih]

theorem dlookup_dinsert_self {α : Type} (k : Nat) (v : α) (l : List (Nat × α)) :
    dlookup k (dinsert k v l) = some v := by
  unfold dinsert
  rcases h : dlookup k l with _ | w
  · exact dlookup_append_single_self h v
  · exact dlookup_dupdate_self ⟨w, h⟩

theorem dlookup_dinsert_ne {α : Type} {k k' : Nat} (h : k' ≠ k) (v : α) (l : List (Nat × α)) :
    dlookup k' (dinsert k v l) = dlookup k' l := by
  unfold dinsert
  rcases hl : dlookup k l with _ | w
  · exact dlookup_append_single_ne h v l
  · exact dlookup_dupdate_ne h v l

theorem dkeys_dinsert {α : Type} (k : Nat) (v : α) (l : List (Nat × α)) :
    dkeys (dinsert k v l) = if k ∈ dkeys l then dkeys l else dkeys l ++ [k] := by
  unfold dinsert
  rcases h : dlookup k l with _ | w
  · have hmem : k ∉ dkeys l := dlookup_eq_none_iff.mp h
    rw [if_neg hmem]
    simp [dkeys]
  · have hmem : k ∈ dkeys l := mem_keys_of_dlookup h
    rw [if_pos hmem]
    exact dkeys_dupdate k v l

theorem DWF_dinsert {α : Type} {l : List (Nat × α)} (k : Nat) (v : α) (h : DWF l) :
    DWF (dinsert k v l) := by
  unfold DWF
  rw [dkeys_dinsert]
  by_cases hk : k ∈ dkeys l
  · simpa [hk] using h
  · simpa [hk, List.nodup_append] using h

theorem dlookup_eraseKeys {α : Type} (k : Nat) (ks : List Nat) (l : List (Nat × α)) :
    dlookup k (eraseKeys ks l) = if k ∈ ks then none else dlookup k l := by
  induction ks generalizing l with
  | nil => simp [eraseKeys]
  | cons k0 rest ih =>
      show dlookup k (eraseKeys rest (derase k0 l)) = _
      rw [ih]
      by_cases hmem : k ∈ rest
      · simp [hmem]
      · by_cases hk0 : k = k0
        · subst hk0
          simp [hmem, dlookup_derase_self]
        · simp [hmem, hk0, dlookup_derase_ne hk0]

theorem dkeys_eraseKeys_sublist {α : Type} (ks : List Nat) (l : List (Nat × α)) :
    (dkeys (eraseKeys ks l)).Sublist (dkeys l) := by
  induction ks generalizing l with
  | nil => simp [eraseKeys]
  | cons k0 rest ih =>
      show (dkeys (eraseKeys rest (derase k0 l))).Sublist _
      exact (ih (derase k0 l)).trans (dkeys_derase_sublist k0 l)

theorem DWF_eraseKeys {α : Type} {l : List (Nat × α)} (ks : List Nat) (h : DWF l) :
    DWF (eraseKeys ks l) :=
  List.Nodup.sublist (dkeys_eraseKeys_sublist ks l) h

/-! ## Claim C10: get_user_project_dir clamps low slots, accepts high ones -/

/-- C10: for every user id and every integer slot argument, the function
totally returns a slot directory (its return type is a plain string, so
no failure is possible): any slot below 1 is silently clamped to slot 1,
aliasing slot 1's directory, and any slot of at least 1 — including
values above `MAX_BOTS_PER_USER` — is accepted unchecked, yielding the
unclamped slot directory. -/
theorem get_user_project_dir_clamps (baseDir : String) (user_id : Nat) (n : Int) :
    (n < 1 → get_user_project_dir baseDir user_id n = get_user_project_dir baseDir user_id 1) ∧
    (1 ≤ n → get_user_project_dir baseDir user_id n = slot_dir_path baseDir user_id n) := by
  constructor
  · intro h
    simp [get_user_project_dir, h]
  · intro h
    have h' : ¬ n < 1 := not_lt.mpr h
    simp [get_user_project_dir, h']

/-- C10, instantiated: slot argument -3 aliases slot 1, and slot 7 (above
`MAX_BOTS_PER_USER` = 2) is accepted unchecked. -/
theorem get_user_project_dir_clamps_witness :
    get_user_project_dir "base" 5 (-3) = get_user_project_dir "base" 5 1 ∧
    get_user_project_dir "base" 5 7 = slot_dir_path "base" 5 7 :=
  ⟨(get_user_project_dir_clamps "base" 5 (-3)).1 (by decide),
   (get_user_project_dir_clamps "base" 5 7).2 (by decide)⟩

/-! ## Claim C2: start_process path-escape guard -/

/-- C2 (amended): for an entry file that exists and is a regular file,
resolving outside the working directory yields the path-escape error and
nothing is spawned; conversely the spawn is reached only when the entry
file exists, is a regular file and resolves inside the working
directory, and then the child runs that script in that directory. (For a
nonexistent or non-regular entry file the call also does not spawn, but
it reports the not-found / not-a-file error instead of the path-escape
one.) -/
theorem start_process_guard (fs : FileSystem) (script wd : FsPath) :
    (fs.pathExists script = true → fs.isFile script = true →
      insideDir (fs.resolve script) (fs.resolve wd) = false →
      start_process fs script wd = .error .pathEscape) ∧
    (∀ proc : SpawnedProc, start_process fs script wd = .ok proc →
      fs.pathExists script = true ∧ fs.isFile script = true ∧
        insideDir (fs.resolve script) (fs.resolve wd) = true ∧ proc = ⟨script, wd⟩) := by
  constructor
  · intro h1 h2 h3
    simp [start_process, h1, h2, h3]
  · intro proc h
    rcases he1 : fs.pathExists script with _ | _
    · simp [start_process, he1] at h
    · rcases he2 : fs.isFile script with _ | _
      · simp [start_process, he1, he2] at h
      · rcases he3 : insideDir (fs.resolve script) (fs.resolve wd) with _ | _
        · simp [start_process, he1, he2, he3] at h
        · simp [start_process, he1, he2, he3] at h
          exact ⟨rfl, rfl, rfl, h.symm⟩

/-- C2, instantiated: an existing regular file whose canonical path is
outside the working directory is rejected with the path-escape error. -/
theorem start_process_guard_witness :
    start_process allFS ["etc", "passwd"] ["home", "user"] = .error .pathEscape :=
  (start_process_guard allFS ["etc", "passwd"] ["home", "user"]).1 rfl rfl rfl

/-- C2 counterexample to the claim as stated: an entry file whose
canonical form lies outside the working directory but which does not
exist is rejected with the not-found error, not the path-escape error. -/
theorem start_process_missing_file_counterexample :
    insideDir (missingFS.resolve ["etc", "passwd"]) (missingFS.resolve ["home", "user"]) = false ∧
    start_process missingFS ["etc", "passwd"] ["home", "user"] = .error .scriptNotFound :=
  ⟨rfl, rfl⟩

/-! ## Claim C7: extract_zip traversal guard -/

/-- C7 (amended): for an archive of at most 10000 entries, the first
entry whose path is absolute or contains a parent-directory segment
makes `extract_zip` return the unsafe-path error carrying that entry,
and no file is written to the destination. (Archives with more than
10000 entries are rejected by the earlier entry-count check instead,
also before any write.) -/
theorem extract_zip_unsafe_guard (entries : List String) (entry : String)
    (hlen : entries.length ≤ 10000)
    (hfind : entries.find? (fun p => isAbsPath p || containsDotDot p) = some entry) :
    extract_zip entries = .error (.unsafePath entry) ∧
    extract_zip_writes entries = [] := by
  have hnot : ¬ 10000 < entries.length := not_lt.mpr hlen
  have hres : extract_zip entries = .error (.unsafePath entry) := by
    simp only [extract_zip]
    rw [if_neg hnot, hfind]
  exact ⟨hres, by simp [extract_zip_writes, hres]⟩

/-- C7, instantiated on an archive containing the entry `"../evil"`. -/
theorem extract_zip_unsafe_guard_witness :
    extract_zip ["good.py", "../evil"] = .error (.unsafePath "../evil") ∧
    extract_zip_writes ["good.py", "../evil"] = [] :=
  extract_zip_unsafe_guard ["good.py", "../evil"] "../evil" (by decide) (by decide)

/-- C7 counterexample to the claim as stated: an archive with 10001
entries, one of which is the traversal path `"../evil"`, is rejected
with the too-many-files error rather than the unsafe-path error (the
entry-count check runs first); still, nothing is extracted. -/
theorem extract_zip_too_many_counterexample :
    extract_zip bigEntries = .error .tooManyFiles ∧
    extract_zip_writes bigEntries = [] := by
  have hlen : 10000 < bigEntries.length := by
    unfold bigEntries
    rw [List.length_cons, List.length_replicate]
    omega
  have hres : extract_zip bigEntries = .error .tooManyFiles := by
    simp only [extract_zip]
    rw [if_pos hlen]
  exact ⟨hres, by simp [extract_zip_writes, hres]⟩

/-! ## Claim C5: register_running_bot on an occupied slot -/

/-- C5 (amended): `register_running_bot` performs no conflict check at
all — on every state, including one where a live process is already
registered in the same (user, slot), it returns True and silently
replaces the slot's registry entry with the new process. Conflict
prevention is left entirely to the callers. -/
theorem register_running_bot_overwrites (now : Nat) (st : SessionManager)
    (u slot proc : Nat) (path : String) (msg : Nat) :
    (st.register_running_bot now u slot proc path msg).2 = true ∧
    dlookup slot ((st.register_running_bot now u slot proc path msg).1.botsOf u) =
      some ⟨proc, path, [], msg, now⟩ := by
  refine ⟨rfl, ?_⟩
  show dlookup slot
      (((dlookup u (dinsert u
          (dinsert slot ⟨proc, path, [], msg, now⟩ (st.botsOf u)) st.runningBots))).getD []) = _
  rw [dlookup_dinsert_self]
  exact dlookup_dinsert_self slot _ _

/-- C5 counterexample to the claim as stated: with process 100 alive and
registered at (user 7, slot 1), a second registration of process 200 in
the same slot succeeds (returns True) and silently replaces the entry,
instead of failing with an internal-conflict error. -/
theorem register_running_bot_overwrite_counterexample :
    SessionManager.is_bot_running (fun _ => true) stReg 7 (some 1) = true ∧
    (stReg.register_running_bot 1 7 1 200 "q" 6).2 = true ∧
    dlookup 1 ((stReg.register_running_bot 1 7 1 200 "q" 6).1.botsOf 7) =
      some ⟨200, "q", [], 6, 1⟩ := by
  decide

/-! ## Claim C6: stop_bot on an already-stopped or empty slot -/

/-- C6 (amended): when the user has at least one registered slot,
stopping a positive slot with no registry entry succeeds and leaves the
manager state unchanged; but when the user has no running-bot entry at
all (never registered, or every slot already stopped and reaped),
`stop_bot` returns an error ("No bot is running") rather than success,
so stopping twice is not equivalent to stopping once when the first call
removed the user's last slot. The state is unchanged in both cases. -/
theorem stop_bot_missing_slot_cases (st : SessionManager) (u s : Nat)
    (hwf : DWF st.runningBots) :
    (dlookup u st.runningBots = none →
      st.stop_bot u (some s) = (st, false, some "No bot is running")) ∧
    (∀ inner, dlookup u st.runningBots = some inner → inner ≠ [] → s ≠ 0 →
      dlookup s inner = none →
      st.stop_bot u (some s) = (st, true, none)) := by
  constructor
  · intro h
    simp [SessionManager.stop_bot, h]
  · intro inner hlk hne hs0 hsl
    have hslots : SessionManager.stopSlots inner (some s) = [s] := by
      show (if s = 0 then dkeys inner else [s]) = [s]
      rw [if_neg hs0]
    have hstep : eraseKeys (SessionManager.stopSlots inner (some s)) inner = inner := by
      rw [hslots]
      show derase s inner = inner
      exact derase_of_not_mem hsl
    have hempty : inner.isEmpty = false := by
      cases inner with
      | nil => exact absurd rfl hne
      | cons a t => rfl
    have hupd : dupdate u inner st.runningBots = st.runningBots :=
      dupdate_self hwf hlk
    simp [SessionManager.stop_bot, hlk, hstep, hempty, hupd]

/-- C6, instantiated: user 7 has a bot in slot 1 (state `stReg`);
stopping the empty slot 2 succeeds and leaves the state unchanged, while
stopping slot 2 for a user with no bots at all errors. -/
theorem stop_bot_missing_slot_cases_witness :
    stReg.stop_bot 7 (some 2) = (stReg, true, none) ∧
    (SessionManager.init 600).stop_bot 9 (some 2) =
      (SessionManager.init 600, false, some "No bot is running") :=
  ⟨(stop_bot_missing_slot_cases stReg 7 2 (by decide)).2
      [(1, ⟨100, "p", [], 5, 0⟩)] (by decide) (by decide) (by decide) (by decide),
   (stop_bot_missing_slot_cases (SessionManager.init 600) 9 2 (by decide)).1 rfl⟩

/-- C6 counterexample to the claim as stated: stopping (user 7, slot 1)
when user 7 has no running process registered at all returns the error
"No bot is running", not success; and after stopping the one bot of
state `stReg`, a second stop of the same slot returns that error while
the first returned success. -/
theorem stop_bot_not_idempotent_counterexample :
    (SessionManager.init 600).stop_bot 7 (some 1) =
      (SessionManager.init 600, false, some "No bot is running") ∧
    (stReg.stop_bot 7 (some 1)).2 = (true, none) ∧
    ((stReg.stop_bot 7 (some 1)).1.stop_bot 7 (some 1)).2 =
      (false, some "No bot is running") := by
  decide

/-! ## Claim C9: monitor output retention -/

theorem lastWindow_cons_of_le (n : Nat) (x : String) (xs : List String)
    (h : n ≤ xs.length) :
    lastWindow n (x :: xs) = lastWindow n xs := by
  unfold lastWindow
  rw [List.length_cons, Nat.succ_sub h, List.drop_succ_cons]

theorem lastWindow_of_le (n : Nat) (l : List String) (h : l.length ≤ n) :
    lastWindow n l = l := by
  unfold lastWindow
  rw [Nat.sub_eq_zero_of_le h, List.drop_zero]

theorem lastWindow_length_le (n : Nat) (l : List String) :
    (lastWindow n l).length ≤ n := by
  unfold lastWindow
  rw [List.length_drop]
  omega

theorem foldl_pushLine_window (maxLines : Nat) (lines : List String) :
    ∀ b : List String, b.length ≤ maxLines →
      lines.foldl (pushLine maxLines) b =
        lastWindow maxLines (b ++ (lines.map pyStrip).filter (fun l => !(l == ""))) := by
  induction lines with
  | nil =>
      intro b hb
      simpa using (lastWindow_of_le maxLines b hb).symm
  | cons raw rest ih =>
      intro b hb
      rw [List.foldl_cons, List.map_cons]
      by_cases hstrip : pyStrip raw = ""
      · have hpush : pushLine maxLines b raw = b := by
          simp [pushLine, hstrip]
        have hfil : (pyStrip raw :: rest.map pyStrip).filter (fun l => !(l == "")) =
            (rest.map pyStrip).filter (fun l => !(l == "")) := by
          simp [hstrip]
        rw [hpush, hfil]
        exact ih b hb
      · have hfil : (pyStrip raw :: rest.map pyStrip).filter (fun l => !(l == "")) =
            pyStrip raw :: (rest.map pyStrip).filter (fun l => !(l == "")) := by
          simp [hstrip]
        rw [hfil]
        by_cases hlen : maxLines < (b ++ [pyStrip raw]).length
        · have hlenN : maxLines < b.length + 1 := by
            simpa using hlen
          have hpush : pushLine maxLines b raw = (b ++ [pyStrip raw]).drop 1 := by
            simp only [pushLine, if_neg hstrip, if_pos hlen]
          have hlen1 : ((b ++ [pyStrip raw]).drop 1).length ≤ maxLines := by
            simp only [List.length_drop, List.length_append, List.length_cons,
              List.length_nil]
            omega
          rw [hpush, ih _ hlen1]
          cases b with
          | nil =>
              have hmax : maxLines = 0 := by
                simp only [List.length_nil] at hlenN
                omega
              subst hmax
              simp only [List.nil_append, List.drop_succ_cons, List.drop_zero,
                List.drop_nil]
              exact (lastWindow_cons_of_le 0 (pyStrip raw) _ (Nat.zero_le _)).symm
          | cons y b' =>
              have hbN : maxLines < b'.length + 1 + 1 := by
                simpa using hlenN
              have hy : ((y :: b') ++ [pyStrip raw]).drop 1 = b' ++ [pyStrip raw] := rfl
              rw [hy, List.append_assoc, List.singleton_append]
              have hble : maxLines ≤ (b' ++ pyStrip raw ::
                  (rest.map pyStrip).filter (fun l => !(l == ""))).length := by
                rw [List.length_append, List.length_cons]
                omega
              exact (lastWindow_cons_of_le maxLines y _ hble).symm
        · have hpush : pushLine maxLines b raw = b ++ [pyStrip raw] := by
            simp only [pushLine, if_neg hstrip, if_neg hlen]
          have hlen1 : (b ++ [pyStrip raw]).length ≤ maxLines :=
            Nat.le_of_not_lt hlen
          rw [hpush, ih _ hlen1, List.append_assoc, List.singleton_append]

/-- C9: for a process that emits a finite sequence of lines and then
exits, the monitor returns at most `max_console_lines` lines, and the
returned sequence is exactly the most recent window of the stripped
non-empty emitted lines, a suffix taken in original emission order. -/
theorem monitor_console_output_window (maxLines : Nat) (lines : List String) :
    (monitor_console_output maxLines lines).length ≤ maxLines ∧
    monitor_console_output maxLines lines = retainedWindowSpec maxLines lines ∧
    List.IsSuffix (monitor_console_output maxLines lines)
      ((lines.map pyStrip).filter (fun l => !(l == ""))) := by
  have hm : monitor_console_output maxLines lines =
      lastWindow maxLines ((lines.map pyStrip).filter (fun l => !(l == ""))) := by
    simpa [monitor_console_output] using
      foldl_pushLine_window maxLines lines [] (by simp)
  refine ⟨?_, ?_, ?_⟩
  · rw [hm]
    exact lastWindow_length_le _ _
  · rw [hm]
    rfl
  · rw [hm]
    unfold lastWindow
    exact List.drop_suffix _ _

/-! ## Claim C3: security gate fail-open -/

theorem check_file_with_retry_no_malicious (outcome : String → CheckOutcome)
    (rate_limited_models models : List String)
    (h : ∀ m ∈ models, ∀ r, outcome m = .ok r → r.type ≠ "malicious") :
    check_file_with_retry outcome rate_limited_models models =
      ⟨"normal", "Code verified safe"⟩ := by
  induction models with
  | nil => rfl
  | cons m rest ih =>
      have hrest : ∀ m' ∈ rest, ∀ r, outcome m' = .ok r → r.type ≠ "malicious" :=
        fun m' hm' => h m' (List.mem_cons_of_mem m hm')
      unfold check_file_with_retry
      by_cases hrl : rate_limited_models.contains m
      · simp only [hrl, if_true]
        exact ih hrest
      · simp only [hrl, if_false, Bool.false_eq_true]
        rcases ho : outcome m with _ | r
        · exact ih hrest
        · have hr : ¬ r.type = "malicious" := h m (List.mem_cons_self m rest) r ho
          simp only [hr, if_false]
          exact ih hrest

theorem assignLoop_full (g : String → ScanRes) (l : List String) :
    assignLoop l (l.map g) = l.map (fun f => (f, g f)) := by
  induction l with
  | nil => rfl
  | cons a rest ih =>
      simp only [List.map_cons, assignLoop]
      rw [ih]

theorem assignBatch_all_content (retry : String → ScanRes) (hasContent : String → Bool)
    (batch : List String) (h : ∀ f ∈ batch, hasContent f = true) :
    assignBatch retry hasContent batch = batch.map (fun f => (f, retry f)) := by
  unfold assignBatch
  rw [List.filter_eq_self.mpr h]
  exact assignLoop_full retry batch

theorem scanBatches_all_content (retry : String → ScanRes) (hasContent : String → Bool)
    (l : List String) (hcontent : ∀ f ∈ l, hasContent f = true) :
    scanBatches retry hasContent l = l.map (fun f => (f, retry f)) := by
  have key : ∀ n l', l'.length ≤ n → (∀ f ∈ l', hasContent f = true) →
      scanBatches retry hasContent l' = l'.map (fun f => (f, retry f)) := by
    intro n
    induction n with
    | zero =>
        intro l' hl _
        have : l' = [] := List.eq_nil_of_length_eq_zero (Nat.le_zero.mp hl)
        subst this
        rfl
    | succ n ih =>
        intro l' hl hc
        rcases l' with _ | ⟨a, _ | ⟨b, _ | ⟨c, _ | ⟨d, _ | ⟨e, rest⟩⟩⟩⟩⟩
        · rfl
        · rw [scanBatches, assignBatch_all_content _ _ _ hc]
        · rw [scanBatches, assignBatch_all_content _ _ _ hc]
        · rw [scanBatches, assignBatch_all_content _ _ _ hc]
        · rw [scanBatches, assignBatch_all_content _ _ _ hc]
        · have hbatch : ∀ f ∈ [a, b, c, d, e], hasContent f = true := by
            intro f hf
            apply hc
            simp only [List.mem_cons] at hf ⊢
            tauto
          have hrest : ∀ f ∈ rest, hasContent f = true := by
            intro f hf
            apply hc
            simp only [List.mem_cons]
            exact Or.inr (Or.inr (Or.inr (Or.inr (Or.inr hf))))
          have hlrest : rest.length ≤ n := by
            simp only [List.length_cons] at hl
            omega
          rw [scanBatches, assignBatch_all_content _ _ _ hbatch, ih rest hlrest hrest]
          simp
  exact key l.length l (Nat.le_refl _) hcontent

theorem slookup_append (k : String) (l1 l2 : List (String × ScanRes)) :
    slookup k (l1 ++ l2) =
      match slookup k l1 with
      | some v => some v
      | none => slookup k l2 := by
  induction l1 with
  | nil => rfl
  | cons p rest ih =>
      obtain ⟨k', v⟩ := p
      by_cases h : k' = k <;> simp [slookup, h, ih]

theorem slookup_map_pair (g : String → ScanRes) (k : String) (l : List String) :
    slookup k (l.map (fun f => (f, g f))) = if k ∈ l then some (g k) else none := by
  induction l with
  | nil => simp [slookup]
  | cons a rest ih =>
      by_cases h : a = k
      · subst h
        simp [slookup]
      · simp only [List.map_cons, slookup, if_neg h, ih, List.mem_cons]
        have hne : ¬ (k = a) := fun hh => h hh.symm
        simp [hne]

/-- C3 (amended): when every configured classifier model fails for every
file — raising (rate limit) or returning one of the fail-open fallback
results, all of which carry verdict `normal` — `scan_files` still
returns, with no exception, a result for every input file path, each
with verdict `normal`; the accompanying statement, however, is the
generic success message `Code verified safe` (or `Not a code file`), not
a statement noting that the scan was unavailable. -/
theorem scan_files_fail_open (outcome : String → String → CheckOutcome)
    (rate_limited_models models : List String) (hasContent : String → Bool)
    (file_paths : List String) (p : String)
    (hfail : ∀ f m, checkFileFails (outcome f m))
    (hcontent : ∀ f, hasContent f = true)
    (hp : p ∈ file_paths) :
    slookup p (scan_files outcome rate_limited_models models hasContent file_paths) =
      some ⟨"normal",
        if isCodeFile p = true then "Code verified safe" else "Not a code file"⟩ := by
  have hretry : ∀ f, check_file_with_retry (outcome f) rate_limited_models models =
      ⟨"normal", "Code verified safe"⟩ := by
    intro f
    apply check_file_with_retry_no_malicious
    intro m _ r hr
    rcases hfail f m with h | ⟨r', hr', hty⟩
    · rw [h] at hr
      cases hr
    · rw [hr'] at hr
      cases hr
      rw [hty]
      decide
  unfold scan_files
  by_cases hempty : (file_paths.filter isCodeFile).isEmpty
  · have hpcf : isCodeFile p = false := by
      rcases hcf : isCodeFile p with _ | _
      · rfl
      · exfalso
        have : p ∈ file_paths.filter isCodeFile := List.mem_filter.mpr ⟨hp, hcf⟩
        rw [List.isEmpty_iff] at hempty
        rw [hempty] at this
        cases this
    rw [if_pos hempty]
    have := slookup_map_pair (fun _ => (⟨"normal", "Not a code file"⟩ : ScanRes)) p file_paths
    rw [this, if_pos hp, hpcf]
    simp
  · rw [if_neg hempty]
    have hscan : scanBatches
        (fun f => check_file_with_retry (outcome f) rate_limited_models models)
        hasContent (file_paths.filter isCodeFile) =
        (file_paths.filter isCodeFile).map
          (fun f => (f, ⟨"normal", "Code verified safe"⟩)) := by
      rw [scanBatches_all_content _ _ _ (fun f _ => hcontent f)]
      exact List.map_congr_left (fun f _ => by rw [hretry f])
    rw [hscan, slookup_append]
    rcases hcf : isCodeFile p with _ | _
    · have hnotin : p ∉ file_paths.filter isCodeFile := by
        intro hmem
        have := (List.mem_filter.mp hmem).2
        rw [hcf] at this
        cases this
      rw [slookup_map_pair, if_neg hnotin]
      have hin2 : p ∈ file_paths.filter (fun f =>
          (slookup f ((file_paths.filter isCodeFile).map
            (fun f => (f, (⟨"normal", "Code verified safe"⟩ : ScanRes))))).isNone) := by
        apply List.mem_filter.mpr
        refine ⟨hp, ?_⟩
        rw [slookup_map_pair, if_neg hnotin]
        rfl
      rw [slookup_map_pair, if_pos hin2]
      rfl
    · have hin : p ∈ file_paths.filter isCodeFile := List.mem_filter.mpr ⟨hp, hcf⟩
      rw [slookup_map_pair, if_pos hin]
      rfl

/-- C3, instantiated: with two configured models that both fail on every
call, the scan returns a `normal` / `Code verified safe` result for the
code file and a `normal` / `Not a code file` result for the other input. -/
theorem scan_files_fail_open_witness :
    slookup "a.py" (scan_files (fun _ _ => .error ()) [] ["m1", "m2"]
        (fun _ => true) ["a.py", "b.txt"]) =
      some ⟨"normal", "Code verified safe"⟩ ∧
    slookup "b.txt" (scan_files (fun _ _ => .error ()) [] ["m1", "m2"]
        (fun _ => true) ["a.py", "b.txt"]) =
      some ⟨"normal", "Not a code file"⟩ :=
  ⟨(scan_files_fail_open (fun _ _ => .error ()) [] ["m1", "m2"] (fun _ => true)
      ["a.py", "b.txt"] "a.py" (fun _ _ => Or.inl rfl) (fun _ => rfl)
      (by decide)).trans (by decide),
   (scan_files_fail_open (fun _ _ => .error ()) [] ["m1", "m2"] (fun _ => true)
      ["a.py", "b.txt"] "b.txt" (fun _ _ => Or.inl rfl) (fun _ => rfl)
      (by decide)).trans (by decide)⟩

/-- C3 counterexample to the claim as stated: when every model fails
(here: every call raises), the per-file statement is the generic success
message `Code verified safe` — the whole scan output is identical to
that of a scan whose classifier calls all succeed with benign verdicts —
so the statement does not note that the scan was unavailable. -/
theorem scan_files_unavailable_statement_counterexample :
    slookup "a.py" (scan_files (fun _ _ => .error ()) [] ["m1", "m2"]
        (fun _ => true) ["a.py"]) =
      some ⟨"normal", "Code verified safe"⟩ ∧
    scan_files (fun _ _ => .error ()) [] ["m1", "m2"] (fun _ => true) ["a.py"] =
      scan_files (fun _ _ => .ok ⟨"normal", "Code looks benign"⟩) [] ["m1", "m2"]
        (fun _ => true) ["a.py"] := by
  decide

/-! ## Claim C8: reclaiming idle sessions leaves running processes alone -/

theorem cleanupStep_runningBots (timeout now : Nat) (acc : SessionManager × Nat)
    (p : Nat × Session) :
    (SessionManager.cleanupStep timeout now acc p).1.runningBots = acc.1.runningBots := by
  unfold SessionManager.cleanupStep
  split <;> rfl

theorem cleanup_foldl_runningBots (timeout now : Nat) (items : List (Nat × Session)) :
    ∀ acc : SessionManager × Nat,
      (items.foldl (SessionManager.cleanupStep timeout now) acc).1.runningBots = acc.1.runningBots := by
  induction items with
  | nil => intro acc; rfl
  | cons p rest ih =>
      intro acc
      rw [List.foldl_cons, ih (SessionManager.cleanupStep timeout now acc p),
        cleanupStep_runningBots]

theorem cleanup_foldl_maps (timeout now : Nat) (items : List (Nat × Session)) :
    ∀ acc : SessionManager × Nat,
      (items.foldl (SessionManager.cleanupStep timeout now) acc).1.userSessions =
        eraseKeys (expiredKeys timeout now items) acc.1.userSessions ∧
      (items.foldl (SessionManager.cleanupStep timeout now) acc).1.userProjects =
        eraseKeys (expiredKeys timeout now items) acc.1.userProjects := by
  induction items with
  | nil => intro acc; exact ⟨rfl, rfl⟩
  | cons p rest ih =>
      intro acc
      rw [List.foldl_cons]
      unfold expiredKeys
      rw [List.filter_cons]
      by_cases hcond : timeout < now - p.2.lastActivity
      · rw [if_pos (by simpa using hcond)]
        have hstep : SessionManager.cleanupStep timeout now acc p =
            ({ acc.1 with
                userSessions := derase p.1 acc.1.userSessions
                userProjects := derase p.1 acc.1.userProjects }, acc.2 + 1) := by
          unfold SessionManager.cleanupStep
          rw [if_pos hcond]
        rw [hstep]
        exact ih _
      · rw [if_neg (by simpa using hcond)]
        have hstep : SessionManager.cleanupStep timeout now acc p = acc := by
          unfold SessionManager.cleanupStep
          rw [if_neg hcond]
        rw [hstep]
        exact ih acc

theorem expiredKeys_subset_keys (timeout now : Nat) (items : List (Nat × Session)) :
    expiredKeys timeout now items ⊆ dkeys items := by
  intro k hk
  unfold expiredKeys at hk
  rcases List.mem_map.mp hk with ⟨p, hp, rfl⟩
  exact List.mem_map.mpr ⟨p, (List.mem_filter.mp hp).1, rfl⟩

theorem expiredKeys_cons (timeout now k : Nat) (sess : Session)
    (rest : List (Nat × Session)) :
    expiredKeys timeout now ((k, sess) :: rest) =
      if timeout < now - sess.lastActivity then k :: expiredKeys timeout now rest
      else expiredKeys timeout now rest := by
  unfold expiredKeys
  rw [List.filter_cons]
  by_cases h : timeout < now - sess.lastActivity
  · rw [if_pos (by simpa using h), if_pos h, List.map_cons]
  · rw [if_neg (by simpa using h), if_neg h]

theorem mem_expiredKeys_iff (timeout now : Nat) (items : List (Nat × Session))
    (hwf : DWF items) (u : Nat) :
    u ∈ expiredKeys timeout now items ↔
      ∃ s, dlookup u items = some s ∧ timeout < now - s.lastActivity := by
  induction items with
  | nil => simp [expiredKeys, dlookup]
  | cons p rest ih =>
      obtain ⟨k, sess⟩ := p
      have hwf0 : (k :: dkeys rest).Nodup := hwf
      have hknotin : k ∉ dkeys rest := (List.nodup_cons.mp hwf0).1
      have hwf' : DWF rest := (List.nodup_cons.mp hwf0).2
      rw [expiredKeys_cons]
      by_cases hcond : timeout < now - sess.lastActivity
      · rw [if_pos hcond]
        constructor
        · intro hmem
          rcases List.mem_cons.mp hmem with rfl | hmem'
          · exact ⟨sess, by simp [dlookup], hcond⟩
          · rcases (ih hwf').mp hmem' with ⟨s, hs, hts⟩
            have hne : k ≠ u := by
              intro heq
              subst heq
              exact hknotin (mem_keys_of_dlookup hs)
            exact ⟨s, by simpa [dlookup, hne] using hs, hts⟩
        · intro ⟨s, hs, hts⟩
          by_cases hk : k = u
          · exact List.mem_cons.mpr (Or.inl hk.symm)
          · apply List.mem_cons.mpr
            right
            apply (ih hwf').mpr
            exact ⟨s, by simpa [dlookup, hk] using hs, hts⟩
      · rw [if_neg hcond]
        rw [ih hwf']
        constructor
        · intro ⟨s, hs, hts⟩
          have hne : k ≠ u := by
            intro heq
            subst heq
            exact hknotin (mem_keys_of_dlookup hs)
          exact ⟨s, by simpa [dlookup, hne] using hs, hts⟩
        · intro ⟨s, hs, hts⟩
          by_cases hk : k = u
          · subst hk
            have hss : sess = s := by simpa [dlookup] using hs
            subst hss
            exact absurd hts hcond
          · exact ⟨s, by simpa [dlookup, hk] using hs, hts⟩

theorem mem_expiredKeys_iff_sessionExpired (st : SessionManager) (now u : Nat)
    (hwf : DWF st.userSessions) :
    u ∈ expiredKeys st.sessionTimeout now st.userSessions ↔
      st.sessionExpired now u = true := by
  rw [mem_expiredKeys_iff _ _ _ hwf]
  unfold SessionManager.sessionExpired
  rcases h : dlookup u st.userSessions with _ | sess
  · simp
  · simp only [decide_eq_true_eq]
    constructor
    · intro ⟨s, hs, hts⟩
      cases hs
      exact hts
    · intro hts
      exact ⟨sess, rfl, hts⟩

/-- C8: `cleanup_expired_sessions` removes exactly the upload-session
bookkeeping (the `user_sessions` entry, and the user's `user_projects`
entry) of users idle past `session_timeout`, and changes nothing else:
the running-bots registry is untouched, and every process reported alive
by `is_bot_running` before the call is still reported alive after it. -/
theorem cleanup_expired_sessions_frame (st : SessionManager) (now : Nat)
    (hwf : DWF st.userSessions) :
    (st.cleanup_expired_sessions now).1.runningBots = st.runningBots ∧
    (∀ u, dlookup u (st.cleanup_expired_sessions now).1.userSessions =
      if st.sessionExpired now u then none else dlookup u st.userSessions) ∧
    (∀ u, dlookup u (st.cleanup_expired_sessions now).1.userProjects =
      if st.sessionExpired now u then none else dlookup u st.userProjects) ∧
    (∀ (alive : Nat → Bool) (u : Nat) (slot : Option Nat),
      SessionManager.is_bot_running alive (st.cleanup_expired_sessions now).1 u slot =
        SessionManager.is_bot_running alive st u slot) := by
  have hrb : (st.cleanup_expired_sessions now).1.runningBots = st.runningBots :=
    cleanup_foldl_runningBots st.sessionTimeout now st.userSessions (st, 0)
  have hmaps := cleanup_foldl_maps st.sessionTimeout now st.userSessions (st, 0)
  refine ⟨hrb, ?_, ?_, ?_⟩
  · intro u
    rw [show (st.cleanup_expired_sessions now).1.userSessions =
        eraseKeys (expiredKeys st.sessionTimeout now st.userSessions) st.userSessions
      from hmaps.1]
    rw [dlookup_eraseKeys]
    by_cases hexp : st.sessionExpired now u = true
    · rw [if_pos ((mem_expiredKeys_iff_sessionExpired st now u hwf).mpr hexp), if_pos hexp]
    · rw [if_neg (fun hmem =>
        hexp ((mem_expiredKeys_iff_sessionExpired st now u hwf).mp hmem))]
      rw [if_neg hexp]
  · intro u
    rw [show (st.cleanup_expired_sessions now).1.userProjects =
        eraseKeys (expiredKeys st.sessionTimeout now st.userSessions) st.userProjects
      from hmaps.2]
    rw [dlookup_eraseKeys]
    by_cases hexp : st.sessionExpired now u = true
    · rw [if_pos ((mem_expiredKeys_iff_sessionExpired st now u hwf).mpr hexp), if_pos hexp]
    · rw [if_neg (fun hmem =>
        hexp ((mem_expiredKeys_iff_sessionExpired st now u hwf).mp hmem))]
      rw [if_neg hexp]
  · intro alive u slot
    unfold SessionManager.is_bot_running
    rw [hrb]

/-- C8, instantiated on `stMixed` at time 1000 (session idle for longer
than the 600-second timeout): user 7's session entry is removed while
user 8's bot is untouched and still reported alive. -/
theorem cleanup_expired_sessions_frame_witness :
    (stMixed.cleanup_expired_sessions 1000).1.runningBots = stMixed.runningBots ∧
    dlookup 7 (stMixed.cleanup_expired_sessions 1000).1.userSessions = none ∧
    SessionManager.is_bot_running (fun _ => true)
      (stMixed.cleanup_expired_sessions 1000).1 8 (some 1) = true :=
  ⟨(cleanup_expired_sessions_frame stMixed 1000 (by decide)).1,
   ((cleanup_expired_sessions_frame stMixed 1000 (by decide)).2.1 7).trans (by decide),
   ((cleanup_expired_sessions_frame stMixed 1000 (by decide)).2.2.2
      (fun _ => true) 8 (some 1)).trans (by decide)⟩

/-! ## Shared registry lemmas for the slot invariants (C1, C4) -/

theorem dlookup_filter_none {β : Type} {k : Nat} {l : List (Nat × β)}
    (gp : Nat × β → Bool) (h : dlookup k l = none) :
    dlookup k (l.filter gp) = none := by
  rw [dlookup_eq_none_iff] at h ⊢
  intro hmem
  exact h (((List.filter_sublist l).map Prod.fst).subset hmem)

theorem dkeys_map_filter_sublist {β : Type} (l : List (Nat × β)) (f : β → β)
    (g : β → Bool) :
    (dkeys ((l.map (fun p => (p.1, f p.2))).filter
      (fun p => g p.2))).Sublist (dkeys l) := by
  induction l with
  | nil => simp [dkeys]
  | cons p rest ih =>
      obtain ⟨k, v⟩ := p
      rw [List.map_cons, List.filter_cons]
      by_cases hg : g (f v) = true
      · rw [if_pos hg]
        show (k :: dkeys _).Sublist (k :: dkeys rest)
        exact ih.cons₂ k
      · rw [if_neg hg]
        show (dkeys _).Sublist (k :: dkeys rest)
        exact ih.cons k

theorem dlookup_map_filter {β : Type} (l : List (Nat × β)) (hwf : DWF l)
    (f : β → β) (g : β → Bool) (u : Nat) :
    dlookup u ((l.map (fun p => (p.1, f p.2))).filter (fun p => g p.2)) =
      match dlookup u l with
      | none => none
      | some v => if g (f v) then some (f v) else none := by
  induction l with
  | nil => rfl
  | cons p rest ih =>
      obtain ⟨k, v⟩ := p
      have hwf0 : (k :: dkeys rest).Nodup := hwf
      have hknotin : k ∉ dkeys rest := (List.nodup_cons.mp hwf0).1
      have hwf' : DWF rest := (List.nodup_cons.mp hwf0).2
      rw [List.map_cons, List.filter_cons]
      by_cases hg : g (f v) = true
      · rw [if_pos hg]
        by_cases hk : k = u
        · subst hk
          simp [dlookup, hg]
        · simp [dlookup, hk, ih hwf']
      · rw [if_neg hg]
        by_cases hk : k = u
        · subst hk
          have hnone : dlookup k rest = none := dlookup_eq_none_iff.mpr hknotin
          rw [ih hwf', hnone]
          simp [dlookup, hg]
        · simp [dlookup, hk, ih hwf']

theorem start_upload_session_runningBots (maxBots : Nat) (baseDir : String)
    (now : Nat) (st : SessionManager) (u : Nat) (loc : String) :
    (st.start_upload_session maxBots baseDir now u loc).1.runningBots =
      st.runningBots := by
  unfold SessionManager.start_upload_session
  rcases SessionManager.getAvailableSlot maxBots st u with _ | slot <;> rfl

theorem getAvailableSlot_spec (maxBots : Nat) (st : SessionManager) (u slot : Nat)
    (h : SessionManager.getAvailableSlot maxBots st u = some slot) :
    dlookup slot (st.botsOf u) = none ∧ st.get_upload_slot u ≠ some slot ∧
      1 ≤ slot ∧ slot ≤ maxBots := by
  unfold SessionManager.getAvailableSlot at h
  have hmem := List.mem_of_find?_eq_some h
  have hpred := List.find?_some h
  rw [Bool.not_eq_true', decide_eq_false_iff_not] at hpred
  have h1 : slot ∉ dkeys (st.botsOf u) := fun hc => hpred (List.mem_append_left _ hc)
  have h2 : slot ∉ (st.get_upload_slot u).toList :=
    fun hc => hpred (List.mem_append_right _ hc)
  have h3 : 1 ≤ slot ∧ slot < 1 + maxBots := List.mem_range'_1.mp hmem
  refine ⟨dlookup_eq_none_iff.mpr h1, ?_, h3.1, by omega⟩
  intro hc
  apply h2
  rw [hc]
  exact List.mem_singleton.mpr rfl

/-! ## Claim C1: per-user capacity invariant -/

theorem SlotWF_of_runningBots_eq {maxBots : Nat} {st st' : SessionManager}
    (h : st'.runningBots = st.runningBots) (hwf : SlotWF maxBots st) :
    SlotWF maxBots st' := by
  obtain ⟨h1, h2⟩ := hwf
  constructor
  · show DWF st'.runningBots
    rw [h]
    exact h1
  · intro u
    have hb : st'.botsOf u = st.botsOf u := by
      unfold SessionManager.botsOf
      rw [h]
    rw [hb]
    exact h2 u

theorem SlotWF_init (maxBots timeout : Nat) :
    SlotWF maxBots (SessionManager.init timeout) := by
  refine ⟨List.nodup_nil, fun u => ⟨List.nodup_nil, fun s hs => ?_⟩⟩
  cases hs

theorem SlotWF_apply (maxBots : Nat) (baseDir : String) (st : SessionManager)
    (o : Op) (hwf : SlotWF maxBots st) (hop : o.slotOK maxBots = true) :
    SlotWF maxBots (o.apply maxBots baseDir st) := by
  obtain ⟨houter, hinner⟩ := hwf
  cases o with
  | startUpload u loc now =>
      exact SlotWF_of_runningBots_eq
        (start_upload_session_runningBots maxBots baseDir now st u loc) ⟨houter, hinner⟩
  | endUpload u =>
      exact ⟨houter, hinner⟩
  | cleanup now =>
      exact SlotWF_of_runningBots_eq
        (cleanup_foldl_runningBots st.sessionTimeout now st.userSessions (st, 0))
        ⟨houter, hinner⟩
  | register u slot proc path msg now =>
      have hrange : 1 ≤ slot ∧ slot ≤ maxBots := by
        unfold Op.slotOK at hop
        simpa [Bool.and_eq_true, decide_eq_true_eq] using hop
      have hrb : (Op.apply maxBots baseDir st
          (Op.register u slot proc path msg now)).runningBots =
          dinsert u (dinsert slot ⟨proc, path, [], msg, now⟩ (st.botsOf u))
            st.runningBots := rfl
      constructor
      · show DWF (Op.apply maxBots baseDir st
          (Op.register u slot proc path msg now)).runningBots
        rw [hrb]
        exact DWF_dinsert u _ houter
      · intro u'
        by_cases hu : u' = u
        · subst hu
          have hbots : (Op.apply maxBots baseDir st
              (Op.register u' slot proc path msg now)).botsOf u' =
              dinsert slot ⟨proc, path, [], msg, now⟩ (st.botsOf u') := by
            unfold SessionManager.botsOf
            rw [hrb, dlookup_dinsert_self]
            rfl
          rw [hbots]
          refine ⟨DWF_dinsert slot _ (hinner u').1, ?_⟩
          intro s hs
          rw [dkeys_dinsert] at hs
          by_cases hmem : slot ∈ dkeys (st.botsOf u')
          · rw [if_pos hmem] at hs
            exact (hinner u').2 s hs
          · rw [if_neg hmem] at hs
            rcases List.mem_append.mp hs with h | h
            · exact (hinner u').2 s h
            · have hsl : s = slot := by simpa using h
              subst hsl
              exact hrange
        · have hbots : (Op.apply maxBots baseDir st
              (Op.register u slot proc path msg now)).botsOf u' = st.botsOf u' := by
            unfold SessionManager.botsOf
            rw [hrb, dlookup_dinsert_ne hu]
          rw [hbots]
          exact hinner u'
  | stopBot u slot =>
      rcases hlk : dlookup u st.runningBots with _ | inner
      · have hrb : (Op.apply maxBots baseDir st (Op.stopBot u slot)).runningBots =
            st.runningBots := by
          show (st.stop_bot u slot).1.runningBots = st.runningBots
          unfold SessionManager.stop_bot
          rw [hlk]
        exact SlotWF_of_runningBots_eq hrb ⟨houter, hinner⟩
      · have hbst : st.botsOf u = inner := by
          unfold SessionManager.botsOf
          rw [hlk]
          rfl
        rcases hemp : (eraseKeys (SessionManager.stopSlots inner slot) inner).isEmpty with _ | _
        case true =>
          have hrb : (Op.apply maxBots baseDir st (Op.stopBot u slot)).runningBots =
              derase u st.runningBots := by
            show (st.stop_bot u slot).1.runningBots = _
            simp [SessionManager.stop_bot, hlk, hemp]
          constructor
          · show DWF (Op.apply maxBots baseDir st (Op.stopBot u slot)).runningBots
            rw [hrb]
            exact DWF_derase houter
          · intro u'
            by_cases hu : u' = u
            · subst hu
              have hbots : (Op.apply maxBots baseDir st (Op.stopBot u' slot)).botsOf u' = [] := by
                unfold SessionManager.botsOf
                rw [hrb, dlookup_derase_self]
                rfl
              rw [hbots]
              exact ⟨List.nodup_nil, fun s hs => by cases hs⟩
            · have hbots : (Op.apply maxBots baseDir st (Op.stopBot u slot)).botsOf u' =
                  st.botsOf u' := by
                unfold SessionManager.botsOf
                rw [hrb, dlookup_derase_ne hu]
              rw [hbots]
              exact hinner u'
        case false =>
          have hrb : (Op.apply maxBots baseDir st (Op.stopBot u slot)).runningBots =
              dupdate u (eraseKeys (SessionManager.stopSlots inner slot) inner)
                st.runningBots := by
            show (st.stop_bot u slot).1.runningBots = _
            simp [SessionManager.stop_bot, hlk, hemp]
          constructor
          · show DWF (Op.apply maxBots baseDir st (Op.stopBot u slot)).runningBots
            rw [hrb]
            unfold DWF
            rw [dkeys_dupdate]
            exact houter
          · intro u'
            by_cases hu : u' = u
            · subst hu
              have hbots : (Op.apply maxBots baseDir st (Op.stopBot u' slot)).botsOf u' =
                  eraseKeys (SessionManager.stopSlots inner slot) inner := by
                unfold SessionManager.botsOf
                rw [hrb, dlookup_dupdate_self ⟨inner, hlk⟩]
                rfl
              rw [hbots]
              refine ⟨DWF_eraseKeys _ (hbst ▸ (hinner u').1), ?_⟩
              intro s hs
              apply (hinner u').2 s
              rw [hbst]
              exact (dkeys_eraseKeys_sublist _ inner).subset hs
            · have hbots : (Op.apply maxBots baseDir st (Op.stopBot u slot)).botsOf u' =
                  st.botsOf u' := by
                unfold SessionManager.botsOf
                rw [hrb, dlookup_dupdate_ne hu]
              rw [hbots]
              exact hinner u'
  | countAll alive =>
      have hrb : (Op.apply maxBots baseDir st (Op.countAll alive)).runningBots =
          (st.runningBots.map (fun p =>
            (p.1, p.2.filter (fun q => alive q.2.process)))).filter
            (fun p => !p.2.isEmpty) := rfl
      constructor
      · show DWF (Op.apply maxBots baseDir st (Op.countAll alive)).runningBots
        rw [hrb]
        exact List.Nodup.sublist (dkeys_map_filter_sublist st.runningBots
          (fun inner => inner.filter (fun q => alive q.2.process))
          (fun inner => !inner.isEmpty)) houter
      · intro u
        have hchar := dlookup_map_filter st.runningBots houter
          (fun inner => inner.filter (fun q => alive q.2.process))
          (fun inner => !inner.isEmpty) u
        rcases hold : dlookup u st.runningBots with _ | inner
        · rw [hold] at hchar
          have hchar2 : dlookup u ((st.runningBots.map (fun p =>
              (p.1, p.2.filter (fun q => alive q.2.process)))).filter
              (fun p => !p.2.isEmpty)) = none := hchar
          have hbots : (Op.apply maxBots baseDir st (Op.countAll alive)).botsOf u = [] := by
            unfold SessionManager.botsOf
            rw [hrb, hchar2]
            rfl
          rw [hbots]
          exact ⟨List.nodup_nil, fun s hs => by cases hs⟩
        · rw [hold] at hchar
          have hchar2 : dlookup u ((st.runningBots.map (fun p =>
              (p.1, p.2.filter (fun q => alive q.2.process)))).filter
              (fun p => !p.2.isEmpty)) =
              if (!(inner.filter (fun q => alive q.2.process)).isEmpty) = true
              then some (inner.filter (fun q => alive q.2.process)) else none := hchar
          have hbst : st.botsOf u = inner := by
            unfold SessionManager.botsOf
            rw [hold]
            rfl
          by_cases hg : (!(inner.filter (fun q => alive q.2.process)).isEmpty) = true
          · rw [if_pos hg] at hchar2
            have hbots : (Op.apply maxBots baseDir st (Op.countAll alive)).botsOf u =
                inner.filter (fun q => alive q.2.process) := by
              unfold SessionManager.botsOf
              rw [hrb, hchar2]
              rfl
            rw [hbots]
            constructor
            · exact List.Nodup.sublist ((List.filter_sublist inner).map Prod.fst)
                (hbst ▸ (hinner u).1)
            · intro s hs
              apply (hinner u).2 s
              rw [hbst]
              exact ((List.filter_sublist inner).map Prod.fst).subset hs
          · rw [if_neg hg] at hchar2
            have hbots : (Op.apply maxBots baseDir st (Op.countAll alive)).botsOf u = [] := by
              unfold SessionManager.botsOf
              rw [hrb, hchar2]
              rfl
            rw [hbots]
            exact ⟨List.nodup_nil, fun s hs => by cases hs⟩

theorem SlotWF_applyTrace (maxBots : Nat) (baseDir : String) :
    ∀ (ops : List Op) (st : SessionManager), SlotWF maxBots st →
      (∀ o ∈ ops, o.slotOK maxBots = true) →
      SlotWF maxBots (applyTrace maxBots baseDir st ops) := by
  intro ops
  induction ops with
  | nil =>
      intro st hwf _
      exact hwf
  | cons o rest ih =>
      intro st hwf hops
      exact ih (o.apply maxBots baseDir st)
        (SlotWF_apply maxBots baseDir st o hwf (hops o (List.mem_cons_self o rest)))
        (fun o' ho' => hops o' (List.mem_cons_of_mem o ho'))

theorem botsOf_length_le_of_SlotWF (maxBots : Nat) (st : SessionManager)
    (hwf : SlotWF maxBots st) (u : Nat) :
    (st.botsOf u).length ≤ maxBots := by
  obtain ⟨-, hinner⟩ := hwf
  obtain ⟨hnd, hrange⟩ := hinner u
  have hsub : dkeys (st.botsOf u) ⊆ List.range' 1 maxBots := by
    intro s hs
    rw [List.mem_range'_1]
    have := hrange s hs
    omega
  have hlen : (dkeys (st.botsOf u)).length ≤ (List.range' 1 maxBots).length :=
    (hnd.subperm hsub).length_le
  have h1 : (dkeys (st.botsOf u)).length = (st.botsOf u).length :=
    List.length_map _ _
  have h2 : (List.range' 1 maxBots).length = maxBots := by simp
  omega

theorem count_for_user_le_of_SlotWF (maxBots : Nat) (st : SessionManager)
    (hwf : SlotWF maxBots st) (alive : Nat → Bool) (u : Nat) :
    st.get_running_bots_count_for_user alive u ≤ maxBots := by
  have hb := botsOf_length_le_of_SlotWF maxBots st hwf u
  unfold SessionManager.get_running_bots_count_for_user
  rcases hold : dlookup u st.runningBots with _ | inner
  · exact Nat.zero_le _
  · have hbst : st.botsOf u = inner := by
      unfold SessionManager.botsOf
      rw [hold]
      rfl
    rw [hbst] at hb
    calc (inner.filter (fun p => alive p.2.process)).length
        ≤ inner.length := List.length_filter_le _ _
      _ ≤ maxBots := hb

/-- C1: starting from a fresh manager, after every sequence of
operations whose register calls use a slot in the data-model range
`[1, MAX_BOTS_PER_USER]`, every user has at most `MAX_BOTS_PER_USER`
running-bot registry entries, and hence at most that many live running
processes as counted by `get_running_bots_count_for_user`; in
particular `register_running_bot` never takes a user past the cap,
because the registry is keyed by slot. -/
theorem running_count_for_user_le_max (maxBots : Nat) (baseDir : String)
    (timeout : Nat) (ops : List Op)
    (hops : ∀ o ∈ ops, o.slotOK maxBots = true)
    (alive : Nat → Bool) (u : Nat) :
    ((applyTrace maxBots baseDir (SessionManager.init timeout) ops).botsOf u).length
        ≤ maxBots ∧
    (applyTrace maxBots baseDir
        (SessionManager.init timeout) ops).get_running_bots_count_for_user alive u
      ≤ maxBots := by
  have hwf := SlotWF_applyTrace maxBots baseDir ops (SessionManager.init timeout)
    (SlotWF_init maxBots timeout) hops
  exact ⟨botsOf_length_le_of_SlotWF maxBots _ hwf u,
    count_for_user_le_of_SlotWF maxBots _ hwf alive u⟩

/-- C1, instantiated: after an upload session and two registrations that
fill both slots of user 7, the user's live count is still at most
`MAX_BOTS_PER_USER` = 2. -/
theorem running_count_for_user_le_max_witness :
    ((applyTrace 2 "base" (SessionManager.init 600)
        [Op.startUpload 7 "channel" 0, Op.endUpload 7,
         Op.register 7 1 100 "p" 5 0, Op.register 7 2 101 "q" 6 0]).botsOf 7).length
      ≤ 2 ∧
    (applyTrace 2 "base" (SessionManager.init 600)
        [Op.startUpload 7 "channel" 0, Op.endUpload 7,
         Op.register 7 1 100 "p" 5 0,
         Op.register 7 2 101 "q" 6 0]).get_running_bots_count_for_user
      (fun _ => true) 7 ≤ 2 :=
  running_count_for_user_le_max 2 "base" 600
    [Op.startUpload 7 "channel" 0, Op.endUpload 7,
     Op.register 7 1 100 "p" 5 0, Op.register 7 2 101 "q" 6 0]
    (by decide) (fun _ => true) 7

/-! ## Claim C4: no upload-session / running-process coexistence -/

theorem get_upload_slot_congr {st st' : SessionManager}
    (h : st'.userProjects = st.userProjects) (u : Nat) :
    st'.get_upload_slot u = st.get_upload_slot u := by
  unfold SessionManager.get_upload_slot
  rw [h]

theorem botsOf_congr {st st' : SessionManager}
    (h : st'.runningBots = st.runningBots) (u : Nat) :
    st'.botsOf u = st.botsOf u := by
  unfold SessionManager.botsOf
  rw [h]

theorem NoCoexist_shrink_bots {st st' : SessionManager}
    (hpr : st'.userProjects = st.userProjects)
    (hshrink : ∀ u s, dlookup s (st.botsOf u) = none → dlookup s (st'.botsOf u) = none)
    (hco : NoCoexist st) : NoCoexist st' := by
  intro u s h
  rw [get_upload_slot_congr hpr u] at h
  exact hshrink u s (hco u s h)

theorem NoCoexist_shrink_projects {st st' : SessionManager}
    (hrb : st'.runningBots = st.runningBots)
    (hshrink : ∀ u s, st'.get_upload_slot u = some s → st.get_upload_slot u = some s)
    (hco : NoCoexist st) : NoCoexist st' := by
  intro u s h
  rw [botsOf_congr hrb u]
  exact hco u s (hshrink u s h)

theorem start_upload_session_projects (maxBots : Nat) (baseDir : String) (now : Nat)
    (st : SessionManager) (u : Nat) (loc : String) :
    (st.start_upload_session maxBots baseDir now u loc).1.userProjects =
      match SessionManager.getAvailableSlot maxBots st u with
      | none => st.userProjects
      | some slot =>
          dinsert u ⟨loc, slot, get_user_project_dir baseDir u slot⟩ st.userProjects := by
  unfold SessionManager.start_upload_session
  rcases SessionManager.getAvailableSlot maxBots st u with _ | slot <;> rfl

theorem RegWF_init (timeout : Nat) : RegWF (SessionManager.init timeout) :=
  ⟨List.nodup_nil, fun _ _ h => Option.noConfusion h⟩

theorem RegWF_apply (maxBots : Nat) (baseDir : String) (st : SessionManager)
    (o : Op) (hwf : RegWF st) (hsafe : SafeStep st o) :
    RegWF (o.apply maxBots baseDir st) := by
  obtain ⟨houter, hco⟩ := hwf
  cases o with
  | startUpload u loc now =>
      have hrb : (Op.apply maxBots baseDir st (Op.startUpload u loc now)).runningBots =
          st.runningBots :=
        start_upload_session_runningBots maxBots baseDir now st u loc
      have hpr : (Op.apply maxBots baseDir st (Op.startUpload u loc now)).userProjects =
          match SessionManager.getAvailableSlot maxBots st u with
          | none => st.userProjects
          | some slot =>
              dinsert u ⟨loc, slot, get_user_project_dir baseDir u slot⟩ st.userProjects :=
        start_upload_session_projects maxBots baseDir now st u loc
      rcases hav : SessionManager.getAvailableSlot maxBots st u with _ | slot
      · rw [hav] at hpr
        refine ⟨?_, ?_⟩
        · show DWF (Op.apply maxBots baseDir st (Op.startUpload u loc now)).runningBots
          rw [hrb]
          exact houter
        · intro u' s' h'
          rw [get_upload_slot_congr hpr u'] at h'
          rw [botsOf_congr hrb u']
          exact hco u' s' h'
      · rw [hav] at hpr
        obtain ⟨hfree, -, -, -⟩ := getAvailableSlot_spec maxBots st u slot hav
        refine ⟨?_, ?_⟩
        · show DWF (Op.apply maxBots baseDir st (Op.startUpload u loc now)).runningBots
          rw [hrb]
          exact houter
        · intro u' s' h'
          rw [botsOf_congr hrb u']
          unfold SessionManager.get_upload_slot at h'
          rw [hpr] at h'
          by_cases hu : u' = u
          · subst hu
            rw [dlookup_dinsert_self] at h'
            have hs' : s' = slot := by
              simpa using h'.symm
            subst hs'
            exact hfree
          · rw [dlookup_dinsert_ne hu] at h'
            exact hco u' s' h'
  | endUpload u =>
      have hrb : (Op.apply maxBots baseDir st (Op.endUpload u)).runningBots =
          st.runningBots := rfl
      refine ⟨?_, NoCoexist_shrink_projects hrb ?_ hco⟩
      · show DWF (Op.apply maxBots baseDir st (Op.endUpload u)).runningBots
        rw [hrb]
        exact houter
      · intro u' s' h'
        have h'' : Option.map Project.slot (dlookup u' (derase u st.userProjects)) =
            some s' := h'
        by_cases hu : u' = u
        · subst hu
          rw [dlookup_derase_self] at h''
          cases h''
        · rw [dlookup_derase_ne hu] at h''
          exact h''
  | register u slot proc path msg now =>
      have hne : st.get_upload_slot u ≠ some slot := hsafe
      have hrb : (Op.apply maxBots baseDir st
          (Op.register u slot proc path msg now)).runningBots =
          dinsert u (dinsert slot ⟨proc, path, [], msg, now⟩ (st.botsOf u))
            st.runningBots := rfl
      refine ⟨?_, ?_⟩
      · show DWF (Op.apply maxBots baseDir st
          (Op.register u slot proc path msg now)).runningBots
        rw [hrb]
        exact DWF_dinsert u _ houter
      · intro u' s' h'
        have h'' : st.get_upload_slot u' = some s' := h'
        have hold := hco u' s' h''
        unfold SessionManager.botsOf
        rw [hrb]
        by_cases hu : u' = u
        · subst hu
          rw [dlookup_dinsert_self]
          show dlookup s' (dinsert slot _ (st.botsOf u')) = none
          have hss : s' ≠ slot := by
            intro hc
            subst hc
            exact hne h''
          rw [dlookup_dinsert_ne hss]
          exact hold
        · rw [dlookup_dinsert_ne hu]
          exact hold
  | stopBot u slot =>
      have hpr : (Op.apply maxBots baseDir st (Op.stopBot u slot)).userProjects =
          st.userProjects := by
        show (st.stop_bot u slot).1.userProjects = st.userProjects
        unfold SessionManager.stop_bot
        split
        · rfl
        · split <;> rfl
      rcases hlk : dlookup u st.runningBots with _ | inner
      · have hrb : (Op.apply maxBots baseDir st (Op.stopBot u slot)).runningBots =
            st.runningBots := by
          show (st.stop_bot u slot).1.runningBots = st.runningBots
          unfold SessionManager.stop_bot
          rw [hlk]
        refine ⟨?_, NoCoexist_shrink_bots hpr ?_ hco⟩
        · show DWF (Op.apply maxBots baseDir st (Op.stopBot u slot)).runningBots
          rw [hrb]
          exact houter
        · intro u' s' h'
          rw [botsOf_congr hrb u']
          exact h'
      · have hbst : st.botsOf u = inner := by
          unfold SessionManager.botsOf
          rw [hlk]
          rfl
        rcases hemp : (eraseKeys (SessionManager.stopSlots inner slot) inner).isEmpty
          with _ | _
        case false =>
          have hrb : (Op.apply maxBots baseDir st (Op.stopBot u slot)).runningBots =
              dupdate u (eraseKeys (SessionManager.stopSlots inner slot) inner)
                st.runningBots := by
            show (st.stop_bot u slot).1.runningBots = _
            simp [SessionManager.stop_bot, hlk, hemp]
          refine ⟨?_, NoCoexist_shrink_bots hpr ?_ hco⟩
          · show DWF (Op.apply maxBots baseDir st (Op.stopBot u slot)).runningBots
            rw [hrb]
            unfold DWF
            rw [dkeys_dupdate]
            exact houter
          · intro u' s' h'
            unfold SessionManager.botsOf
            rw [hrb]
            by_cases hu : u' = u
            · subst hu
              rw [dlookup_dupdate_self ⟨inner, hlk⟩]
              show dlookup s' (eraseKeys (SessionManager.stopSlots inner slot) inner) = none
              rw [dlookup_eraseKeys]
              by_cases hmem : s' ∈ SessionManager.stopSlots inner slot
              · rw [if_pos hmem]
              · rw [if_neg hmem, ← hbst]
                exact h'
            · rw [dlookup_dupdate_ne hu]
              exact h'
        case true =>
          have hrb : (Op.apply maxBots baseDir st (Op.stopBot u slot)).runningBots =
              derase u st.runningBots := by
            show (st.stop_bot u slot).1.runningBots = _
            simp [SessionManager.stop_bot, hlk, hemp]
          refine ⟨?_, NoCoexist_shrink_bots hpr ?_ hco⟩
          · show DWF (Op.apply maxBots baseDir st (Op.stopBot u slot)).runningBots
            rw [hrb]
            exact DWF_derase houter
          · intro u' s' h'
            unfold SessionManager.botsOf
            rw [hrb]
            by_cases hu : u' = u
            · subst hu
              rw [dlookup_derase_self]
              rfl
            · rw [dlookup_derase_ne hu]
              exact h'
  | countAll alive =>
      have hpr : (Op.apply maxBots baseDir st (Op.countAll alive)).userProjects =
          st.userProjects := rfl
      have hrb : (Op.apply maxBots baseDir st (Op.countAll alive)).runningBots =
          (st.runningBots.map (fun p =>
            (p.1, p.2.filter (fun q => alive q.2.process)))).filter
            (fun p => !p.2.isEmpty) := rfl
      refine ⟨?_, NoCoexist_shrink_bots hpr ?_ hco⟩
      · show DWF (Op.apply maxBots baseDir st (Op.countAll alive)).runningBots
        rw [hrb]
        exact List.Nodup.sublist (dkeys_map_filter_sublist st.runningBots
          (fun inner => inner.filter (fun q => alive q.2.process))
          (fun inner => !inner.isEmpty)) houter
      · intro u' s' h'
        have hchar := dlookup_map_filter st.runningBots houter
          (fun inner => inner.filter (fun q => alive q.2.process))
          (fun inner => !inner.isEmpty) u'
        unfold SessionManager.botsOf
        rw [hrb]
        rcases hold : dlookup u' st.runningBots with _ | inner
        · rw [hold] at hchar
          have hchar2 : dlookup u' ((st.runningBots.map (fun p =>
              (p.1, p.2.filter (fun q => alive q.2.process)))).filter
              (fun p => !p.2.isEmpty)) = none := hchar
          rw [hchar2]
          rfl
        · rw [hold] at hchar
          have hbst : st.botsOf u' = inner := by
            unfold SessionManager.botsOf
            rw [hold]
            rfl
          have hchar2 : dlookup u' ((st.runningBots.map (fun p =>
              (p.1, p.2.filter (fun q => alive q.2.process)))).filter
              (fun p => !p.2.isEmpty)) =
              if (!(inner.filter (fun q => alive q.2.process)).isEmpty) = true
              then some (inner.filter (fun q => alive q.2.process)) else none := hchar
          rw [hchar2]
          by_cases hg : (!(inner.filter (fun q => alive q.2.process)).isEmpty) = true
          · rw [if_pos hg]
            show dlookup s' (inner.filter (fun q => alive q.2.process)) = none
            apply dlookup_filter_none
            rw [← hbst]
            exact h'
          · rw [if_neg hg]
            rfl
  | cleanup now =>
      have hrb : (Op.apply maxBots baseDir st (Op.cleanup now)).runningBots =
          st.runningBots :=
        cleanup_foldl_runningBots st.sessionTimeout now st.userSessions (st, 0)
      have hpr : (Op.apply maxBots baseDir st (Op.cleanup now)).userProjects =
          eraseKeys (expiredKeys st.sessionTimeout now st.userSessions)
            st.userProjects :=
        (cleanup_foldl_maps st.sessionTimeout now st.userSessions (st, 0)).2
      refine ⟨?_, NoCoexist_shrink_projects hrb ?_ hco⟩
      · show DWF (Op.apply maxBots baseDir st (Op.cleanup now)).runningBots
        rw [hrb]
        exact houter
      · intro u' s' h'
        unfold SessionManager.get_upload_slot at h' ⊢
        rw [hpr, dlookup_eraseKeys] at h'
        by_cases hmem : u' ∈ expiredKeys st.sessionTimeout now st.userSessions
        · rw [if_pos hmem] at h'
          cases h'
        · rw [if_neg hmem] at h'
          exact h'

theorem RegWF_applyTrace (maxBots : Nat) (baseDir : String) :
    ∀ (ops : List Op) (st : SessionManager), RegWF st →
      SafeTrace maxBots baseDir st ops →
      RegWF (applyTrace maxBots baseDir st ops) := by
  intro ops
  induction ops with
  | nil =>
      intro st hwf _
      exact hwf
  | cons o rest ih =>
      intro st hwf hsafe
      obtain ⟨h1, h2⟩ := hsafe
      exact ih (o.apply maxBots baseDir st) (RegWF_apply maxBots baseDir st o hwf h1) h2

/-- C4 (amended): starting from a fresh manager, for every sequence of
operations in which a process is never registered into the slot
currently reserved by the same user's upload session (the repository's
callers end the upload session before registering), no (user, slot)
pair is ever simultaneously reserved by an active upload session and
occupied by a running-process registry entry. The unrestricted claim is
false: `register_running_bot` itself performs no such check. -/
theorem no_upload_running_coexistence (maxBots : Nat) (baseDir : String)
    (timeout : Nat) (ops : List Op)
    (hsafe : SafeTrace maxBots baseDir (SessionManager.init timeout) ops)
    (u s : Nat) :
    ¬((applyTrace maxBots baseDir (SessionManager.init timeout) ops).get_upload_slot u
        = some s ∧
      (dlookup s ((applyTrace maxBots baseDir
        (SessionManager.init timeout) ops).botsOf u)).isSome = true) := by
  rintro ⟨h1, h2⟩
  have hwf := RegWF_applyTrace maxBots baseDir ops (SessionManager.init timeout)
    (RegWF_init timeout) hsafe
  rw [hwf.2 u s h1] at h2
  cases h2

/-- C4, instantiated: uploading, ending the session, then registering
into the freed slot leaves no coexisting reservation and registration. -/
theorem no_upload_running_coexistence_witness :
    ¬((applyTrace 2 "base" (SessionManager.init 600)
        [Op.startUpload 7 "channel" 0, Op.endUpload 7,
         Op.register 7 1 100 "p" 5 0]).get_upload_slot 7 = some 1 ∧
      (dlookup 1 ((applyTrace 2 "base" (SessionManager.init 600)
        [Op.startUpload 7 "channel" 0, Op.endUpload 7,
         Op.register 7 1 100 "p" 5 0]).botsOf 7)).isSome = true) :=
  no_upload_running_coexistence 2 "base" 600
    [Op.startUpload 7 "channel" 0, Op.endUpload 7, Op.register 7 1 100 "p" 5 0]
    ⟨trivial, trivial, by simp only [SafeStep]; decide, trivial⟩ 7 1

/-- C4 counterexample to the claim as stated: starting an upload session
for user 7 reserves slot 1, and a subsequent `register_running_bot` into
the same slot is not prevented - afterwards the pair (7, 1) is both
reserved by the still-active upload session and occupied by a running
process, so `register_running_process` does not preserve the invariant. -/
theorem upload_running_coexistence_counterexample :
    (applyTrace 2 "base" (SessionManager.init 600)
        [Op.startUpload 7 "channel" 0,
         Op.register 7 1 100 "p" 5 0]).get_upload_slot 7 = some 1 ∧
    (dlookup 1 ((applyTrace 2 "base" (SessionManager.init 600)
        [Op.startUpload 7 "channel" 0,
         Op.register 7 1 100 "p" 5 0]).botsOf 7)).isSome = true := by
  decide

end BotHoster
